import Mathlib

/-!
# sidecred: the configuration validator

A shallow embedding of `config.go` (package `sidecred`): the `Config`,
`StoreConfig` and `CredentialRequest` documents, the methods `Config.Validate`,
`Config.GetStoreConfig`, `CredentialRequest.validate`, `StoreConfig.getAlias`
and `StoreConfig.validate`, and theorems about them.

Modelling conventions.

* Go strings are `String`; Go `int` is `Int` (the only operation on it is the
  comparison with `1`).
* A Go pointer `*T` is an `Option T`: `none` is the nil pointer.  Slices of
  pointers (`[]*StoreConfig`, `[]*CredentialRequest`, `[]*Request`) are lists of
  options.  Reading a field through a nil pointer is a run-time panic, which the
  embedding makes an explicit third outcome next to success and error.
* A Go `map[K]struct{}` used as a set is the list of the keys inserted so far;
  only membership is ever asked of it.
* An `error` built by `fmt.Errorf` is kept as a value that records the format
  used and its arguments (`ConfigError`, `RequestError`); `ConfigError.message`
  renders it to the text that `err.Error()` returns.
* The `range` loops are recursive functions that carry the loop index and the
  set built so far.
* `Validate` assigns to no field of its receiver and calls nothing that does, so
  it is a function from the configuration to an outcome.
-/

namespace Sidecred

/-- Modelled from the spec: the declaration of `StoreType` is not in `config.go`;
the spec gives it as a string tag (`secretsmanager`, `ssm`, `inprocess`). -/
abbrev StoreType := String

/-- Modelled from the spec: the declaration of `CredentialType` is not in
`config.go`; the code converts it with `string(r.Type)` and compares it with
`""`, so it is a string type. -/
abbrev CredentialType := String

/-- Modelled from the spec: the constant `AWSSTS`, declared outside `config.go`;
the spec lists the recognized type `aws:sts`. -/
def AWSSTS : CredentialType := "aws:sts"

/-- Modelled from the spec: the constant `GithubAccessToken`, recognized type
`github:access-token`. -/
def GithubAccessToken : CredentialType := "github:access-token"

/-- Modelled from the spec: the constant `GithubDeployKey`, recognized type
`github:deploy-key`. -/
def GithubDeployKey : CredentialType := "github:deploy-key"

/-- Modelled from the spec: the constant `ArtifactoryAccessToken`, recognized type
`artifactory:access-token`. -/
def ArtifactoryAccessToken : CredentialType := "artifactory:access-token"

/-- Modelled from the spec: the constant `Randomized`, recognized type `random`. -/
def Randomized : CredentialType := "random"

/-- Modelled from the spec: the struct `Request` is declared outside `config.go`.
The spec gives it a `name`, an optional `type` override and an opaque
provider-specific blob; `config.go` reads only `Name`. -/
structure Request where
  Typ : CredentialType
  Name : String
  Config : List Nat
  deriving DecidableEq, Repr

/-- The struct `StoreConfig`; `Config` is the raw JSON blob, a byte sequence. -/
structure StoreConfig where
  Typ : StoreType
  Alias : String
  Config : List Nat
  deriving DecidableEq, Repr

/-- The struct `CredentialRequest`. -/
structure CredentialRequest where
  Typ : CredentialType
  Store : String
  Credentials : List (Option Request)
  deriving DecidableEq, Repr

/-- The struct `Config`. -/
structure Config where
  Version : Int
  Namespace : String
  Stores : List (Option StoreConfig)
  Requests : List (Option CredentialRequest)
  deriving DecidableEq, Repr

/-- The local struct `requestsKey` of `Validate`, the key of its `requests` map. -/
structure requestsKey where
  Typ : CredentialType
  Store : String
  deriving DecidableEq, Repr

/-- What a call does: it returns normally with a value, returns an error, or
panics on a nil dereference. -/
inductive Outcome (ε α : Type) where
  | ok (a : α)
  | error (e : ε)
  | panic
  deriving DecidableEq, Repr

/-- The errors that `CredentialRequest.validate` builds, one constructor for each
`fmt.Errorf` / `errors.New` call, with the arguments of the format. -/
inductive RequestError where
  /-- The error `"type" must be defined`. -/
  | typeUndefined
  /-- The error `"store" must be defined`. -/
  | storeUndefined
  /-- The error `no credentials requested`. -/
  | noCredentials
  /-- The error `credentials[i]: "name" must be defined`. -/
  | nameUndefined (i : Nat)
  /-- The error `credentials[i]: duplicate name "n"`. -/
  | duplicateName (i : Nat) (name : String)
  deriving DecidableEq, Repr

/-- The errors that `Config.Validate` builds, one constructor for each
`fmt.Errorf` call, with the arguments of the format. -/
inductive ConfigError where
  /-- The error `invalid configuration version: v`. -/
  | invalidVersion (v : Int)
  /-- The error `"namespace" must be defined`. -/
  | namespaceUndefined
  /-- The error `stores[i]: invalid config: msg`. -/
  | invalidStoreConfig (i : Nat) (msg : String)
  /-- The error `stores[i]: duplicate alias "a"`. -/
  | duplicateAlias (i : Nat) (alias_ : String)
  /-- The error `requests[i]: invalid request: e`. -/
  | invalidRequest (i : Nat) (e : RequestError)
  /-- The error `requests[i]: unknown type: t`. -/
  | unknownType (i : Nat) (t : CredentialType)
  /-- The error `requests[i]: invalid store alias: "s"`. -/
  | invalidStoreAlias (i : Nat) (store : String)
  /-- The error `requests[i]: duplicate request: {Type:t Store:s}`. -/
  | duplicateRequest (i : Nat) (key : requestsKey)
  deriving DecidableEq, Repr

/-- The text of a `RequestError`, as `err.Error()` gives it.  `q` is the `%q`
verb of package `fmt` (`strconv.Quote`), which belongs to the Go library. -/
def RequestError.message (q : String → String) : RequestError → String
  | .typeUndefined => q "type" ++ " must be defined"
  | .storeUndefined => q "store" ++ " must be defined"
  | .noCredentials => "no credentials requested"
  | .nameUndefined i => "credentials[" ++ toString i ++ "]: " ++ q "name" ++ " must be defined"
  | .duplicateName i n => "credentials[" ++ toString i ++ "]: duplicate name " ++ q n

/-- The text of a `ConfigError`, as `err.Error()` gives it.  `q` is the `%q`
verb of package `fmt`; `%+v` of a `requestsKey` prints its two string fields
unquoted, after their names. -/
def ConfigError.message (q : String → String) : ConfigError → String
  | .invalidVersion v => "invalid configuration version: " ++ toString v
  | .namespaceUndefined => q "namespace" ++ " must be defined"
  | .invalidStoreConfig i msg => "stores[" ++ toString i ++ "]: invalid config: " ++ msg
  | .duplicateAlias i a => "stores[" ++ toString i ++ "]: duplicate alias " ++ q a
  | .invalidRequest i e => "requests[" ++ toString i ++ "]: invalid request: " ++ e.message q
  | .unknownType i t => "requests[" ++ toString i ++ "]: unknown type: " ++ t
  | .invalidStoreAlias i s => "requests[" ++ toString i ++ "]: invalid store alias: " ++ q s
  | .duplicateRequest i k =>
      "requests[" ++ toString i ++ "]: duplicate request: \x7bType:" ++ k.Typ
        ++ " Store:" ++ k.Store ++ "\x7d"

/-- What `%q` prints for a string of printable characters that has no double
quote and no backslash in it: the string between double quotes. -/
def quotePlain (s : String) : String := "\"" ++ s ++ "\""

/-- The method `(*StoreConfig).getAlias`, on a non-nil receiver. -/
def StoreConfig.getAlias (c : StoreConfig) : String :=
  if c.Alias ≠ "" then c.Alias else c.Typ

/-- The method `(*StoreConfig).validate`: it returns `nil` and reads no field, so
it also returns on a nil receiver. -/
def StoreConfig.validate (_c : Option StoreConfig) : Option String := none

/-- The loop over `c.Credentials` in `CredentialRequest.validate`: `i` is the
index of the head of the list, `creds` the names seen so far. -/
def CredentialRequest.validateCredentials :
    List (Option Request) → Nat → List String → Outcome RequestError Unit
  | [], _, _ => .ok ()
  | none :: _, _, _ => .panic
  | some cc :: rest, i, creds =>
      if cc.Name = "" then .error (.nameUndefined i)
      else if cc.Name ∈ creds then .error (.duplicateName i cc.Name)
      else validateCredentials rest (i + 1) (cc.Name :: creds)

/-- The method `(*CredentialRequest).validate`; a nil receiver panics at
`c.Type`. -/
def CredentialRequest.validate : Option CredentialRequest → Outcome RequestError Unit
  | none => .panic
  | some c =>
      if c.Typ = "" then .error .typeUndefined
      else if c.Store = "" then .error .storeUndefined
      else if c.Credentials.length = 0 then .error .noCredentials
      else CredentialRequest.validateCredentials c.Credentials 0 []

/-- The `switch r.Type` of `Validate`: the five cases that do not reach
`default`. -/
def isRecognized (t : CredentialType) : Bool :=
  t = AWSSTS || t = GithubAccessToken || t = GithubDeployKey
    || t = ArtifactoryAccessToken || t = Randomized

/-- The loop over `c.Stores` in `Validate`: `i` is the index of the head of the
list, `stores` the aliases seen so far; on success it returns the final set.  A
nil entry passes `s.validate()` and panics in `s.getAlias()`. -/
def Config.validateStores :
    List (Option StoreConfig) → Nat → List String → Outcome ConfigError (List String)
  | [], _, stores => .ok stores
  | s :: rest, i, stores =>
      match StoreConfig.validate s with
      | some err => .error (.invalidStoreConfig i err)
      | none =>
          match s with
          | none => .panic
          | some sc =>
              let alias_ := sc.getAlias
              if alias_ ∈ stores then .error (.duplicateAlias i alias_)
              else validateStores rest (i + 1) (alias_ :: stores)

/-- The loop over `c.Requests` in `Validate`: `stores` is the set of declared
aliases, `i` the index of the head of the list, `requests` the keys seen so
far. -/
def Config.validateRequests (stores : List String) :
    List (Option CredentialRequest) → Nat → List requestsKey → Outcome ConfigError Unit
  | [], _, _ => .ok ()
  | r :: rest, i, requests =>
      match CredentialRequest.validate r with
      | .panic => .panic
      | .error err => .error (.invalidRequest i err)
      | .ok _ =>
          match r with
          | none => .panic
          | some rc =>
              if isRecognized rc.Typ = false then .error (.unknownType i rc.Typ)
              else if rc.Store ∉ stores then .error (.invalidStoreAlias i rc.Store)
              else
                let key : requestsKey := { Typ := rc.Typ, Store := rc.Store }
                if key ∈ requests then .error (.duplicateRequest i key)
                else validateRequests stores rest (i + 1) (key :: requests)

/-- The method `(*Config).Validate`; a nil receiver panics at `c.Version`. -/
def Config.Validate : Option Config → Outcome ConfigError Unit
  | none => .panic
  | some c =>
      if c.Version ≠ 1 then .error (.invalidVersion c.Version)
      else if c.Namespace = "" then .error .namespaceUndefined
      else
        match Config.validateStores c.Stores 0 [] with
        | .panic => .panic
        | .error e => .error e
        | .ok stores => Config.validateRequests stores c.Requests 0 []

/-- The method `(*Config).GetStoreConfig`, the loop over the stores from the
first: the result is the pointer returned (`none` is `nil`); a nil receiver
panics at `c.Stores`, a nil entry in `s.getAlias()`. -/
def Config.getStoreConfigLoop (alias_ : String) :
    List (Option StoreConfig) → Outcome Empty (Option StoreConfig)
  | [] => .ok none
  | none :: _ => .panic
  | some s :: rest => if s.getAlias = alias_ then .ok (some s) else getStoreConfigLoop alias_ rest

/-- The method `(*Config).GetStoreConfig`. -/
def Config.GetStoreConfig (c : Option Config) (alias_ : String) :
    Outcome Empty (Option StoreConfig) :=
  match c with
  | none => .panic
  | some c => Config.getStoreConfigLoop alias_ c.Stores

/-! ## Vocabulary of the specification -/

/-- The names of the non-nil entries of a credentials list, in order. -/
def namesOf (cs : List (Option Request)) : List String :=
  cs.reduceOption.map Request.Name

/-- The effective aliases (`Alias` when non-empty, otherwise the `Type` string)
of the non-nil entries of a stores list, in declaration order. -/
def aliasesOf (ss : List (Option StoreConfig)) : List String :=
  ss.reduceOption.map StoreConfig.getAlias

/-- The `(Type, Store)` pair of a request. -/
def CredentialRequest.key (r : CredentialRequest) : requestsKey :=
  { Typ := r.Typ, Store := r.Store }

/-- The `(Type, Store)` pairs of the non-nil entries of a requests list, in
declaration order. -/
def keysOf (rs : List (Option CredentialRequest)) : List requestsKey :=
  rs.reduceOption.map CredentialRequest.key

/-- A request is structurally valid: non-empty `Type`, non-empty `Store`, and a
non-empty credentials list, without nil entries, whose names are non-empty and
pairwise distinct. -/
def CredentialRequest.WellFormed (r : CredentialRequest) : Prop :=
  r.Typ ≠ "" ∧ r.Store ≠ "" ∧ r.Credentials ≠ [] ∧ none ∉ r.Credentials ∧
    "" ∉ namesOf r.Credentials ∧ (namesOf r.Credentials).Nodup

instance (r : CredentialRequest) : Decidable r.WellFormed := by
  unfold CredentialRequest.WellFormed; infer_instance

/-- The five recognized credential types, as the specification lists them. -/
def recognizedTypes : List CredentialType :=
  ["aws:sts", "github:access-token", "github:deploy-key", "artifactory:access-token", "random"]

/-- A request passes the checks that look at it alone, given the declared
aliases: it is structurally valid, its `Type` is one of the five recognized
types and its `Store` is a declared alias. -/
def CredentialRequest.Passes (declared : List String) (r : CredentialRequest) : Prop :=
  r.WellFormed ∧ r.Typ ∈ recognizedTypes ∧ r.Store ∈ declared

instance (declared : List String) (r : CredentialRequest) : Decidable (r.Passes declared) := by
  unfold CredentialRequest.Passes; infer_instance

/-- The requirements of the specification on a configuration: version 1, a
non-empty namespace, stores with pairwise distinct effective aliases, requests
that each pass the checks on one request, and pairwise distinct `(Type, Store)`
pairs; no store and no request is a nil entry. -/
def Config.Valid (c : Config) : Prop :=
  c.Version = 1 ∧ c.Namespace ≠ "" ∧
    none ∉ c.Stores ∧ (aliasesOf c.Stores).Nodup ∧
    none ∉ c.Requests ∧ (∀ r ∈ c.Requests.reduceOption, r.Passes (aliasesOf c.Stores)) ∧
    (keysOf c.Requests).Nodup

instance (c : Config) : Decidable c.Valid := by
  unfold Config.Valid; infer_instance

/-! ## Configurations of the test suite

The opaque `config` blobs and the provider-specific fields of a credential,
which `config.go` never reads, are left empty. -/

/-- The credential `open-source-dev-read-only` of the tests of `TestConfig`. -/
def readOnlyCredential : Request :=
  { Typ := "", Name := "open-source-dev-read-only", Config := [] }

/-- The configuration of the test `works` of `TestConfig`. -/
def worksConfig : Config :=
  { Version := 1
    Namespace := "cloudops"
    Stores := [some { Typ := "secretsmanager", Alias := "", Config := [] }]
    Requests := [some
      { Typ := "aws:sts", Store := "secretsmanager", Credentials := [some readOnlyCredential] }] }

/-- The configuration of the test `errors if alias does not exist`. -/
def aliasMissingConfig : Config :=
  { Version := 1
    Namespace := "cloudops"
    Stores := [some { Typ := "secretsmanager", Alias := "concourse", Config := [] }]
    Requests := [some
      { Typ := "aws:sts", Store := "secretsmanager", Credentials := [some readOnlyCredential] }] }

/-- The configuration of the test `errors on duplicate credential names`. -/
def duplicateNamesConfig : Config :=
  { Version := 1
    Namespace := "cloudops"
    Stores := [some { Typ := "secretsmanager", Alias := "", Config := [] }]
    Requests := [some
      { Typ := "aws:sts"
        Store := "concourse"
        Credentials := [some readOnlyCredential, some readOnlyCredential] }] }

/-- The configuration of the test `errors on duplicate requests`. -/
def duplicateRequestsConfig : Config :=
  { Version := 1
    Namespace := "cloudops"
    Stores := [some { Typ := "secretsmanager", Alias := "concourse", Config := [] }]
    Requests := [
      some { Typ := "aws:sts", Store := "concourse", Credentials := [some readOnlyCredential] },
      some { Typ := "aws:sts", Store := "concourse", Credentials := [some readOnlyCredential] }] }

/-- Scenario S8 of the specification: two stores that share the alias `x`. -/
def duplicateAliasConfig : Config :=
  { Version := 1
    Namespace := "cloudops"
    Stores := [
      some { Typ := "secretsmanager", Alias := "x", Config := [] },
      some { Typ := "ssm", Alias := "x", Config := [] }]
    Requests := [] }

/-- The configuration of the test `sidecred works` of `TestProcess`: its request
has no `type`, the credential carries its own. -/
def sidecredWorksConfig : Config :=
  { Version := 1
    Namespace := "team-name"
    Stores := [some { Typ := "inprocess", Alias := "", Config := [] }]
    Requests := [some
      { Typ := ""
        Store := "inprocess"
        Credentials := [some { Typ := "fake", Name := "fake.state.id", Config := [] }] }] }

/-- The configuration of the test `does nothing if there are no requests` of
`TestProcess`: one request, with `store: inprocess` and `credentials: []`. -/
def noRequestsConfig : Config :=
  { Version := 1
    Namespace := "team-name"
    Stores := [some { Typ := "inprocess", Alias := "", Config := [] }]
    Requests := [some { Typ := "", Store := "inprocess", Credentials := [] }] }

/-- The configuration of `TestProcessCleanup`: no stores and no requests. -/
def cleanupConfig : Config :=
  { Version := 1, Namespace := "team-name", Stores := [], Requests := [] }

/-- A configuration whose one store is a nil entry, as a YAML `null` list
element gives. -/
def nilStoreConfig : Config :=
  { Version := 1, Namespace := "team-name", Stores := [none], Requests := [] }

/-- A configuration whose one request is a nil entry. -/
def nilRequestConfig : Config :=
  { Version := 1, Namespace := "team-name", Stores := [], Requests := [none] }

/-- A configuration whose one request has a nil entry for its one credential. -/
def nilCredentialConfig : Config :=
  { Version := 1
    Namespace := "team-name"
    Stores := [some { Typ := "inprocess", Alias := "", Config := [] }]
    Requests := [some { Typ := "random", Store := "inprocess", Credentials := [none] }] }

/-- The configuration of the test `works` with the credentials list of its
request replaced by the empty list. -/
def worksEmptiedConfig : Config :=
  { worksConfig with
    Requests := [some { Typ := "aws:sts", Store := "secretsmanager", Credentials := [] }] }

/-- A configuration whose one request is structurally valid and has the
unrecognized type `fake`, for the undeclared store `concourse`. -/
def unknownTypeConfig : Config :=
  { Version := 1
    Namespace := "team-name"
    Stores := [some { Typ := "inprocess", Alias := "", Config := [] }]
    Requests := [some
      { Typ := "fake"
        Store := "concourse"
        Credentials := [some { Typ := "", Name := "fake.state.id", Config := [] }] }] }

/-- The index `j` of an error whose text starts with `stores[j]`. -/
def ConfigError.storesIndex : ConfigError → Option Nat
  | .invalidStoreConfig i _ => some i
  | .duplicateAlias i _ => some i
  | _ => none

/-- The index `i` of an error whose text starts with `requests[i]`. -/
def ConfigError.requestsIndex : ConfigError → Option Nat
  | .invalidRequest i _ => some i
  | .unknownType i _ => some i
  | .invalidStoreAlias i _ => some i
  | .duplicateRequest i _ => some i
  | _ => none

/-- A configuration whose one request has a second credential without a name. -/
def missingNameConfig : Config :=
  { Version := 1
    Namespace := "cloudops"
    Stores := [some { Typ := "secretsmanager", Alias := "", Config := [] }]
    Requests := [some
      { Typ := "aws:sts"
        Store := "secretsmanager"
        Credentials := [some readOnlyCredential, some { Typ := "", Name := "", Config := [] }] }] }

/-- A configuration with two stores and two requests of the same type, one for
each store, that both hold the credential `open-source-dev-read-only`. -/
def sharedNameConfig : Config :=
  { Version := 1
    Namespace := "cloudops"
    Stores := [
      some { Typ := "secretsmanager", Alias := "", Config := [] },
      some { Typ := "ssm", Alias := "", Config := [] }]
    Requests := [
      some { Typ := "aws:sts", Store := "secretsmanager", Credentials := [some readOnlyCredential] },
      some { Typ := "aws:sts", Store := "ssm", Credentials := [some readOnlyCredential] }] }

/-- Two entries of a requests list are the same request up to the order of its
credentials (or are both nil). -/
def CredentialRequest.Reordered :
    Option CredentialRequest → Option CredentialRequest → Prop
  | none, none => True
  | some r, some r' =>
      r'.Typ = r.Typ ∧ r'.Store = r.Store ∧ r.Credentials.Perm r'.Credentials
  | _, _ => False

/-- The configuration `c'` is `c` with its stores permuted, its requests permuted
and the credentials permuted inside each request: `rs` is the list of the
requests of `c` in their new order, before their credentials are permuted. -/
def Config.Reordered (c c' : Config) : Prop :=
  c'.Version = c.Version ∧ c'.Namespace = c.Namespace ∧ c.Stores.Perm c'.Stores ∧
    ∃ rs, c.Requests.Perm rs ∧ List.Forall₂ CredentialRequest.Reordered rs c'.Requests

/-- A second credential, `deploy-key`. -/
def deployKeyCredential : Request :=
  { Typ := "", Name := "deploy-key", Config := [] }

/-- A configuration with two stores and two requests, the first with two
credentials. -/
def twoRequestsConfig : Config :=
  { Version := 1
    Namespace := "cloudops"
    Stores := [
      some { Typ := "secretsmanager", Alias := "", Config := [] },
      some { Typ := "ssm", Alias := "", Config := [] }]
    Requests := [
      some { Typ := "aws:sts", Store := "secretsmanager",
             Credentials := [some readOnlyCredential, some deployKeyCredential] },
      some { Typ := "random", Store := "ssm", Credentials := [some readOnlyCredential] }] }

/-- The configuration `twoRequestsConfig` with its stores, its requests and the
credentials of its first request in the opposite order. -/
def twoRequestsSwappedConfig : Config :=
  { Version := 1
    Namespace := "cloudops"
    Stores := [
      some { Typ := "ssm", Alias := "", Config := [] },
      some { Typ := "secretsmanager", Alias := "", Config := [] }]
    Requests := [
      some { Typ := "random", Store := "ssm", Credentials := [some readOnlyCredential] },
      some { Typ := "aws:sts", Store := "secretsmanager",
             Credentials := [some deployKeyCredential, some readOnlyCredential] }] }

/-! ## The loops -/

theorem isRecognized_iff (t : CredentialType) : isRecognized t = true ↔ t ∈ recognizedTypes := by
  simp [isRecognized, recognizedTypes, AWSSTS, GithubAccessToken, GithubDeployKey,
    ArtifactoryAccessToken, Randomized, or_assoc]

theorem isRecognized_false_iff (t : CredentialType) :
    isRecognized t = false ↔ t ∉ recognizedTypes := by
  rw [← isRecognized_iff]; simp

theorem validateCredentials_ok_iff (cs : List (Option Request)) (i : Nat) (seen : List String) :
    CredentialRequest.validateCredentials cs i seen = .ok () ↔
      none ∉ cs ∧ "" ∉ namesOf cs ∧ (namesOf cs).Nodup ∧ ∀ n ∈ namesOf cs, n ∉ seen := by
  induction cs generalizing i seen with
  | nil => simp [CredentialRequest.validateCredentials, namesOf]
  | cons c rest ih =>
    cases c with
    | none => simp [CredentialRequest.validateCredentials]
    | some cc =>
      simp only [CredentialRequest.validateCredentials]
      by_cases h1 : cc.Name = ""
      · simp [h1, namesOf]
      · by_cases h2 : cc.Name ∈ seen
        · simp [h1, h2, namesOf]
        · simp only [h1, h2, if_false, ih]
          simp only [namesOf, List.reduceOption_cons_of_some, List.map_cons, List.mem_cons,
            List.nodup_cons, not_or]
          constructor
          · rintro ⟨a, b, c, d⟩
            refine ⟨⟨by simp, a⟩, ⟨fun h => h1 h.symm, b⟩, ⟨fun h => (d _ h).1 rfl, c⟩, ?_⟩
            rintro n (rfl | hn)
            · exact h2
            · exact (d n hn).2
          · rintro ⟨⟨_, a⟩, ⟨_, b⟩, ⟨c1, c⟩, d⟩
            refine ⟨a, b, c, fun n hn => ⟨?_, d n (Or.inr hn)⟩⟩
            rintro rfl
            exact c1 hn

theorem validateCredentials_append (pre : List Request) (rest : List (Option Request))
    (i : Nat) (seen : List String) (h1 : "" ∉ pre.map Request.Name)
    (h2 : (pre.map Request.Name).Nodup) (h3 : ∀ n ∈ pre.map Request.Name, n ∉ seen) :
    CredentialRequest.validateCredentials (pre.map some ++ rest) i seen =
      CredentialRequest.validateCredentials rest (i + pre.length)
        ((pre.map Request.Name).reverse ++ seen) := by
  induction pre generalizing i seen with
  | nil => simp
  | cons c pre ih =>
    simp only [List.map_cons, List.mem_cons, not_or, List.nodup_cons] at h1 h2 h3
    have hne : c.Name ≠ "" := fun h => h1.1 h.symm
    have hns : c.Name ∉ seen := h3 c.Name (Or.inl rfl)
    simp only [List.map_cons, List.cons_append, CredentialRequest.validateCredentials, hne, hns,
      if_false, List.append_eq]
    rw [ih (i + 1) (c.Name :: seen) h1.2 h2.2]
    · simp [Nat.add_assoc, Nat.add_comm 1]
    · intro n hn
      simp only [List.mem_cons, not_or]
      refine ⟨?_, h3 n (Or.inr hn)⟩
      rintro rfl
      exact h2.1 hn

theorem validate_ok_iff (r : CredentialRequest) :
    CredentialRequest.validate (some r) = .ok () ↔ r.WellFormed := by
  unfold CredentialRequest.validate CredentialRequest.WellFormed
  by_cases h1 : r.Typ = ""
  · simp [h1]
  · by_cases h2 : r.Store = ""
    · simp [h1, h2]
    · by_cases h3 : r.Credentials = []
      · simp [h1, h2, h3]
      · have h3l : r.Credentials.length ≠ 0 := fun h => h3 (List.length_eq_zero.mp h)
        simp only [h1, h2, h3l, if_false, validateCredentials_ok_iff]
        simp [h1, h2, h3]

theorem validate_ne_panic (r : CredentialRequest) (h : none ∉ r.Credentials) :
    CredentialRequest.validate (some r) ≠ .panic := by
  unfold CredentialRequest.validate
  have key : ∀ (cs : List (Option Request)) (i : Nat) (seen : List String), none ∉ cs →
      CredentialRequest.validateCredentials cs i seen ≠ .panic := by
    intro cs
    induction cs with
    | nil => intro i seen _; simp [CredentialRequest.validateCredentials]
    | cons c rest ih =>
      intro i seen hc
      simp only [List.mem_cons, not_or] at hc
      cases c with
      | none => exact absurd rfl hc.1
      | some cc =>
        simp only [CredentialRequest.validateCredentials]
        split_ifs
        · simp
        · simp
        · exact ih _ _ hc.2
  dsimp only
  split_ifs
  · simp
  · simp
  · simp
  · exact key _ _ _ h

theorem validateStores_append (pre : List StoreConfig) (rest : List (Option StoreConfig))
    (i : Nat) (seen : List String) (h2 : (pre.map StoreConfig.getAlias).Nodup)
    (h3 : ∀ a ∈ pre.map StoreConfig.getAlias, a ∉ seen) :
    Config.validateStores (pre.map some ++ rest) i seen =
      Config.validateStores rest (i + pre.length)
        ((pre.map StoreConfig.getAlias).reverse ++ seen) := by
  induction pre generalizing i seen with
  | nil => simp
  | cons s pre ih =>
    simp only [List.map_cons, List.mem_cons, List.nodup_cons] at h2 h3
    have hns : s.getAlias ∉ seen := h3 s.getAlias (Or.inl rfl)
    simp only [List.map_cons, List.cons_append, Config.validateStores, StoreConfig.validate, hns,
      if_false, List.append_eq]
    rw [ih (i + 1) (s.getAlias :: seen) h2.2]
    · simp [Nat.add_assoc, Nat.add_comm 1]
    · intro n hn
      simp only [List.mem_cons, not_or]
      refine ⟨?_, h3 n (Or.inr hn)⟩
      rintro rfl
      exact h2.1 hn

theorem validateStores_ok_iff (ss : List (Option StoreConfig)) (i : Nat) (seen out : List String) :
    Config.validateStores ss i seen = .ok out ↔
      none ∉ ss ∧ (aliasesOf ss).Nodup ∧ (∀ a ∈ aliasesOf ss, a ∉ seen) ∧
        out = (aliasesOf ss).reverse ++ seen := by
  induction ss generalizing i seen with
  | nil => simp [Config.validateStores, aliasesOf, eq_comm]
  | cons s rest ih =>
    cases s with
    | none => simp [Config.validateStores, StoreConfig.validate]
    | some sc =>
      simp only [Config.validateStores, StoreConfig.validate]
      by_cases h2 : sc.getAlias ∈ seen
      · simp [h2, aliasesOf]
      · simp only [h2, if_false, ih]
        simp only [aliasesOf, List.reduceOption_cons_of_some, List.map_cons, List.mem_cons,
          List.nodup_cons, not_or, List.reverse_cons, List.append_assoc, List.singleton_append]
        constructor
        · rintro ⟨a, c, d, e⟩
          refine ⟨⟨by simp, a⟩, ⟨fun h => (d _ h).1 rfl, c⟩, ?_, e⟩
          rintro n (rfl | hn)
          · exact h2
          · exact (d n hn).2
        · rintro ⟨⟨_, a⟩, ⟨c1, c⟩, d, e⟩
          refine ⟨a, c, fun n hn => ⟨?_, d n (Or.inr hn)⟩, e⟩
          rintro rfl
          exact c1 hn

theorem validateRequests_step (stores : List String) (rc : CredentialRequest)
    (rest : List (Option CredentialRequest)) (i : Nat) (seen : List requestsKey)
    (hwf : rc.WellFormed) :
    Config.validateRequests stores (some rc :: rest) i seen =
      if isRecognized rc.Typ = false then .error (.unknownType i rc.Typ)
      else if rc.Store ∉ stores then .error (.invalidStoreAlias i rc.Store)
      else if rc.key ∈ seen then .error (.duplicateRequest i rc.key)
      else Config.validateRequests stores rest (i + 1) (rc.key :: seen) := by
  have hv : CredentialRequest.validate (some rc) = .ok () := (validate_ok_iff rc).2 hwf
  simp only [Config.validateRequests, hv, CredentialRequest.key]

theorem validateRequests_append (stores : List String) (pre : List CredentialRequest)
    (rest : List (Option CredentialRequest)) (i : Nat) (seen : List requestsKey)
    (h1 : ∀ p ∈ pre, p.Passes stores) (h2 : (pre.map CredentialRequest.key).Nodup)
    (h3 : ∀ k ∈ pre.map CredentialRequest.key, k ∉ seen) :
    Config.validateRequests stores (pre.map some ++ rest) i seen =
      Config.validateRequests stores rest (i + pre.length)
        ((pre.map CredentialRequest.key).reverse ++ seen) := by
  induction pre generalizing i seen with
  | nil => simp
  | cons r pre ih =>
    simp only [List.map_cons, List.mem_cons, List.nodup_cons] at h2 h3
    obtain ⟨hwf, hrec, hdecl⟩ := h1 r (List.mem_cons_self _ _)
    have hns : r.key ∉ seen := h3 r.key (Or.inl rfl)
    simp only [List.map_cons, List.cons_append, List.append_eq]
    rw [validateRequests_step stores r _ i seen hwf]
    have hrec := (isRecognized_iff _).2 hrec
    simp only [hrec, hdecl, hns, if_false, not_true_eq_false, Bool.true_eq_false]
    rw [ih (i + 1) (r.key :: seen) (fun p hp => h1 p (List.mem_cons_of_mem _ hp)) h2.2]
    · simp [Nat.add_assoc, Nat.add_comm 1]
    · intro n hn
      simp only [List.mem_cons, not_or]
      refine ⟨?_, h3 n (Or.inr hn)⟩
      rintro rfl
      exact h2.1 hn

theorem validateRequests_ok_iff (stores : List String) (rs : List (Option CredentialRequest))
    (i : Nat) (seen : List requestsKey) :
    Config.validateRequests stores rs i seen = .ok () ↔
      none ∉ rs ∧ (∀ r ∈ rs.reduceOption, r.Passes stores) ∧ (keysOf rs).Nodup ∧
        ∀ k ∈ keysOf rs, k ∉ seen := by
  induction rs generalizing i seen with
  | nil => simp [Config.validateRequests, keysOf]
  | cons r rest ih =>
    cases r with
    | none => simp [Config.validateRequests, CredentialRequest.validate]
    | some rc =>
      by_cases hwf : rc.WellFormed
      · rw [validateRequests_step stores rc rest i seen hwf]
        by_cases h1 : isRecognized rc.Typ = false
        · simp [h1, CredentialRequest.Passes, (isRecognized_false_iff _).1 h1]
        · by_cases h2 : rc.Store ∈ stores
          · by_cases h3 : rc.key ∈ seen
            · simp [h1, h2, h3, keysOf]
            · simp only [h1, h2, h3, if_false, not_true_eq_false, Bool.true_eq_false, ih]
              simp only [keysOf, List.reduceOption_cons_of_some, List.map_cons, List.mem_cons,
                List.nodup_cons, not_or, CredentialRequest.Passes]
              constructor
              · rintro ⟨a, b, c, d⟩
                refine ⟨⟨by simp, a⟩, ?_, ⟨fun h => (d _ h).1 rfl, c⟩, ?_⟩
                · rintro p (rfl | hp)
                  · exact ⟨hwf, (isRecognized_iff _).1 (by simpa using h1), h2⟩
                  · exact b p hp
                · rintro n (rfl | hn)
                  · exact h3
                  · exact (d n hn).2
              · rintro ⟨⟨_, a⟩, b, ⟨c1, c⟩, d⟩
                refine ⟨a, fun p hp => b p (Or.inr hp), c, fun n hn => ⟨?_, d n (Or.inr hn)⟩⟩
                rintro rfl
                exact c1 hn
          · simp [h1, h2, CredentialRequest.Passes]
      · have hv : CredentialRequest.validate (some rc) ≠ .ok () :=
          fun h => hwf ((validate_ok_iff rc).1 h)
        have hl : Config.validateRequests stores (some rc :: rest) i seen ≠ .ok () := by
          simp only [Config.validateRequests]
          cases hc : CredentialRequest.validate (some rc) with
          | ok u => exact absurd hc hv
          | error e => simp
          | panic => simp
        simp [hl, CredentialRequest.Passes, hwf]

theorem reduceOption_map_some {α : Type} (l : List α) : (l.map some).reduceOption = l := by
  induction l with
  | nil => rfl
  | cons a l ih => simp [List.reduceOption_cons_of_some, ih]

theorem aliasesOf_map_some (ss : List StoreConfig) :
    aliasesOf (ss.map some) = ss.map StoreConfig.getAlias := by
  simp [aliasesOf, reduceOption_map_some]

theorem Passes_reverse (declared : List String) (r : CredentialRequest) :
    r.Passes declared.reverse ↔ r.Passes declared := by
  simp [CredentialRequest.Passes]

theorem map_some_reduceOption {α : Type} (l : List (Option α)) (h : none ∉ l) :
    l.reduceOption.map some = l := by
  induction l with
  | nil => rfl
  | cons a l ih =>
    simp only [List.mem_cons, not_or] at h
    cases a with
    | none => exact absurd rfl h.1
    | some a => simp [List.reduceOption_cons_of_some, ih h.2]

/-- The outcome of `Validate` on a configuration with version 1 and a non-empty
namespace whose stores are non-nil and have pairwise distinct effective aliases:
the outcome of the loop over the requests, started with the declared aliases. -/
theorem Validate_of_stores (c : Config) (hv : c.Version = 1) (hn : c.Namespace ≠ "")
    (hs : none ∉ c.Stores) (hnd : (aliasesOf c.Stores).Nodup) :
    Config.Validate (some c) =
      Config.validateRequests (aliasesOf c.Stores).reverse c.Requests 0 [] := by
  have h := (validateStores_ok_iff c.Stores 0 [] _).2 ⟨hs, hnd, by simp, rfl⟩
  simp only [Config.Validate, hv, hn, h, ne_eq, not_true_eq_false, if_false, List.append_nil]

theorem Validate_ok_iff (c : Config) : Config.Validate (some c) = .ok () ↔ c.Valid := by
  unfold Config.Valid
  by_cases hv : c.Version = 1
  · by_cases hn : c.Namespace = ""
    · simp [Config.Validate, hv, hn]
    · by_cases hs : none ∉ c.Stores ∧ (aliasesOf c.Stores).Nodup
      · rw [Validate_of_stores c hv hn hs.1 hs.2, validateRequests_ok_iff]
        simp [hv, hn, hs.1, hs.2, Passes_reverse]
      · have hne : ∀ out, Config.validateStores c.Stores 0 [] ≠ .ok out := by
          intro out h
          have := (validateStores_ok_iff _ _ _ _).1 h
          exact hs ⟨this.1, this.2.1⟩
        have hl : Config.Validate (some c) ≠ .ok () := by
          simp only [Config.Validate, hv, hn, ne_eq, not_true_eq_false, if_false]
          cases hc : Config.validateStores c.Stores 0 [] with
          | ok out => exact absurd hc (hne out)
          | error e => simp
          | panic => simp
        constructor
        · intro h; exact absurd h hl
        · rintro ⟨_, _, a, b, _⟩; exact absurd ⟨a, b⟩ hs
  · simp [Config.Validate, hv]

theorem exists_first_duplicate {α β : Type} (f : α → β) (l : List α)
    (h : ¬ (l.map f).Nodup) :
    ∃ pre x post, l = pre ++ x :: post ∧ (pre.map f).Nodup ∧ f x ∈ pre.map f := by
  induction l using List.reverseRecOn with
  | nil => simp at h
  | append_singleton init last ih =>
    by_cases hi : (init.map f).Nodup
    · refine ⟨init, last, [], rfl, hi, ?_⟩
      by_contra hm
      apply h
      rw [List.map_append, List.nodup_append]
      refine ⟨hi, by simp, ?_⟩
      intro a ha hb
      simp only [List.map_cons, List.map_nil, List.mem_singleton] at hb
      exact hm (hb ▸ ha)
    · obtain ⟨pre, x, post, rfl, h1, h2⟩ := ih hi
      exact ⟨pre, x, post ++ [last], by simp, h1, h2⟩

/-- The outcome of `Validate` when the requests before one position all pass
and have pairwise distinct keys: the loop over the requests resumed at that
position, with the index and the set of keys it has reached. -/
theorem Validate_at_request (c : Config) (pre : List CredentialRequest)
    (rest : List (Option CredentialRequest)) (hv : c.Version = 1) (hn : c.Namespace ≠ "")
    (hs : none ∉ c.Stores) (hnd : (aliasesOf c.Stores).Nodup)
    (hr : c.Requests = pre.map some ++ rest)
    (hpre : ∀ p ∈ pre, p.Passes (aliasesOf c.Stores))
    (hkeys : (pre.map CredentialRequest.key).Nodup) :
    Config.Validate (some c) =
      Config.validateRequests (aliasesOf c.Stores).reverse rest pre.length
        (pre.map CredentialRequest.key).reverse := by
  rw [Validate_of_stores c hv hn hs hnd, hr,
    validateRequests_append _ pre rest 0 [] (fun p hp => (Passes_reverse _ p).2 (hpre p hp)) hkeys
      (by simp)]
  simp

theorem validate_duplicate_name (r : CredentialRequest) (cpre : List Request) (cc : Request)
    (cpost : List (Option Request)) (ht : r.Typ ≠ "") (hst : r.Store ≠ "")
    (hc : r.Credentials = cpre.map some ++ some cc :: cpost)
    (h1 : "" ∉ cpre.map Request.Name) (h2 : (cpre.map Request.Name).Nodup)
    (h3 : cc.Name ≠ "") (h4 : cc.Name ∈ cpre.map Request.Name) :
    CredentialRequest.validate (some r) = .error (.duplicateName cpre.length cc.Name) := by
  have hl : r.Credentials.length ≠ 0 := by rw [hc]; simp
  simp only [CredentialRequest.validate, ht, hst, hl, if_false, hc]
  rw [validateCredentials_append cpre _ 0 [] h1 h2 (by simp)]
  simp [CredentialRequest.validateCredentials, h3, h4]

theorem recognized_ne_empty (t : CredentialType) (h : t ∈ recognizedTypes) : t ≠ "" := by
  rintro rfl
  revert h
  decide

theorem validateStores_ne_panic (ss : List (Option StoreConfig)) (i : Nat) (seen : List String)
    (h : none ∉ ss) : Config.validateStores ss i seen ≠ .panic := by
  induction ss generalizing i seen with
  | nil => simp [Config.validateStores]
  | cons s rest ih =>
    simp only [List.mem_cons, not_or] at h
    cases s with
    | none => exact absurd rfl h.1
    | some sc =>
      simp only [Config.validateStores, StoreConfig.validate]
      split_ifs
      · simp
      · exact ih _ _ h.2

theorem validateRequests_ne_panic (stores : List String) (rs : List (Option CredentialRequest))
    (i : Nat) (seen : List requestsKey) (h : none ∉ rs)
    (hc : ∀ r ∈ rs.reduceOption, none ∉ r.Credentials) :
    Config.validateRequests stores rs i seen ≠ .panic := by
  induction rs generalizing i seen with
  | nil => simp [Config.validateRequests]
  | cons r rest ih =>
    simp only [List.mem_cons, not_or] at h
    cases r with
    | none => exact absurd rfl h.1
    | some rc =>
      have hrc : none ∉ rc.Credentials := hc rc (by simp [List.reduceOption_cons_of_some])
      have hrest : ∀ r ∈ rest.reduceOption, none ∉ r.Credentials := fun r hr =>
        hc r (by simp [List.reduceOption_cons_of_some, hr])
      simp only [Config.validateRequests]
      cases hv : CredentialRequest.validate (some rc) with
      | panic => exact absurd hv (validate_ne_panic rc hrc)
      | error e => simp
      | ok u =>
        dsimp only
        split_ifs
        · simp
        · simp
        · exact ih _ _ h.2 hrest
        · simp

theorem validateStores_error (ss : List (Option StoreConfig)) (i : Nat) (seen : List String)
    (e : ConfigError) (h : Config.validateStores ss i seen = .error e) :
    ∃ j a, e = .duplicateAlias j a := by
  induction ss generalizing i seen with
  | nil => simp [Config.validateStores] at h
  | cons s rest ih =>
    cases s with
    | none => simp [Config.validateStores, StoreConfig.validate] at h
    | some sc =>
      simp only [Config.validateStores, StoreConfig.validate] at h
      split_ifs at h
      · exact ⟨i, sc.getAlias, by injection h with h; exact h.symm⟩
      · exact ih _ _ h

theorem validateRequests_unknownType (stores : List String)
    (rs : List (Option CredentialRequest)) (i₀ : Nat) (seen : List requestsKey) (i : Nat)
    (t : CredentialType)
    (h : Config.validateRequests stores rs i₀ seen = .error (.unknownType i t)) :
    ∃ r, i₀ ≤ i ∧ rs[i - i₀]? = some (some r) ∧ r.Typ = t ∧ t ∉ recognizedTypes := by
  induction rs generalizing i₀ seen with
  | nil => simp [Config.validateRequests] at h
  | cons r rest ih =>
    cases r with
    | none => simp [Config.validateRequests, CredentialRequest.validate] at h
    | some rc =>
      simp only [Config.validateRequests] at h
      cases hv : CredentialRequest.validate (some rc) with
      | panic => simp [hv] at h
      | error e => simp [hv] at h
      | ok u =>
        simp only [hv] at h
        split_ifs at h with h1 h2 h3
        · injection h with h
          injection h with hi ht
          subst hi ht
          exact ⟨rc, le_refl _, by simp, rfl, (isRecognized_false_iff _).1 h1⟩
        · simp at h
        · obtain ⟨r', hle, hget, hty, hnr⟩ := ih _ _ h
          refine ⟨r', by omega, ?_, hty, hnr⟩
          have : i - i₀ = (i - (i₀ + 1)) + 1 := by omega
          rw [this, List.getElem?_cons_succ]
          exact hget
        · simp at h

/-! ## Where an error comes from -/

theorem validateStores_error_at (ss : List (Option StoreConfig)) (i₀ : Nat) (seen : List String)
    (e : ConfigError) (h : Config.validateStores ss i₀ seen = .error e) :
    ∃ j s out, e = .duplicateAlias j s.getAlias ∧ i₀ ≤ j ∧ ss[j - i₀]? = some (some s) ∧
      Config.validateStores (ss.take (j - i₀)) i₀ seen = .ok out ∧ s.getAlias ∈ out := by
  induction ss generalizing i₀ seen with
  | nil => simp [Config.validateStores] at h
  | cons s rest ih =>
    cases s with
    | none => simp [Config.validateStores, StoreConfig.validate] at h
    | some sc =>
      simp only [Config.validateStores, StoreConfig.validate] at h
      split_ifs at h with h1
      · injection h with h
        exact ⟨i₀, sc, seen, h.symm, le_refl _, by simp, by simp [Config.validateStores], h1⟩
      · obtain ⟨j, s, out, he, hle, hget, hok, hmem⟩ := ih _ _ h
        have hj : j - i₀ = (j - (i₀ + 1)) + 1 := by omega
        refine ⟨j, s, out, he, by omega, ?_, ?_, hmem⟩
        · rw [hj, List.getElem?_cons_succ]; exact hget
        · rw [hj, List.take_succ_cons]
          simp only [Config.validateStores, StoreConfig.validate, h1, if_false]
          exact hok

theorem validateRequests_error_at (stores : List String) (rs : List (Option CredentialRequest))
    (i₀ : Nat) (seen : List requestsKey) (e : ConfigError)
    (h : Config.validateRequests stores rs i₀ seen = .error e) :
    ∃ i, e.requestsIndex = some i ∧ i₀ ≤ i ∧ i - i₀ < rs.length ∧
      Config.validateRequests stores (rs.take (i - i₀)) i₀ seen = .ok () := by
  induction rs generalizing i₀ seen with
  | nil => simp [Config.validateRequests] at h
  | cons r rest ih =>
    have here : ∀ e' : ConfigError, e'.requestsIndex = some i₀ →
        ∃ i, e'.requestsIndex = some i ∧ i₀ ≤ i ∧ i - i₀ < (r :: rest).length ∧
          Config.validateRequests stores ((r :: rest).take (i - i₀)) i₀ seen = .ok () :=
      fun e' he' => ⟨i₀, he', le_refl _, by simp, by simp [Config.validateRequests]⟩
    cases r with
    | none => simp [Config.validateRequests, CredentialRequest.validate] at h
    | some rc =>
      simp only [Config.validateRequests] at h
      cases hv : CredentialRequest.validate (some rc) with
      | panic => simp [hv] at h
      | error e' =>
        simp only [hv] at h
        injection h with h
        subst h
        exact here _ rfl
      | ok u =>
        simp only [hv] at h
        split_ifs at h with h1 h2 h3
        · injection h with h; subst h; exact here _ rfl
        · injection h with h; subst h; exact here _ rfl
        · obtain ⟨i, he, hle, hlt, hok⟩ := ih _ _ h
          have hi : i - i₀ = (i - (i₀ + 1)) + 1 := by omega
          refine ⟨i, he, by omega, ?_, ?_⟩
          · simp only [List.length_cons]; omega
          · rw [hi, List.take_succ_cons]
            simp only [Config.validateRequests, hv, h1, h2, h3, if_false, not_true_eq_false]
            exact hok
        · injection h with h; subst h; exact here _ rfl

/-- The four places an error of `Validate` comes from: the version check, the
namespace check, the loop over the stores, the loop over the requests; with what
the loops had accepted before the error. -/
theorem Validate_error_cases (c : Config) (e : ConfigError)
    (h : Config.Validate (some c) = .error e) :
    (c.Version ≠ 1 ∧ e = .invalidVersion c.Version) ∨
      (c.Version = 1 ∧ c.Namespace = "" ∧ e = .namespaceUndefined) ∨
      (c.Version = 1 ∧ c.Namespace ≠ "" ∧ ∃ j s out, e = .duplicateAlias j s.getAlias ∧
        c.Stores[j]? = some (some s) ∧
        Config.validateStores (c.Stores.take j) 0 [] = .ok out ∧ s.getAlias ∈ out) ∨
      (c.Version = 1 ∧ c.Namespace ≠ "" ∧ ∃ out i, Config.validateStores c.Stores 0 [] = .ok out ∧
        e.requestsIndex = some i ∧ i < c.Requests.length ∧
        Config.validateRequests out (c.Requests.take i) 0 [] = .ok ()) := by
  simp only [Config.Validate] at h
  by_cases hv : c.Version = 1
  · by_cases hn : c.Namespace = ""
    · right; left
      simp only [hv, hn, ne_eq, not_true_eq_false, if_false, if_true] at h
      injection h with h
      exact ⟨hv, hn, h.symm⟩
    · right; right
      simp only [hv, hn, ne_eq, not_true_eq_false, if_false] at h
      cases hst : Config.validateStores c.Stores 0 [] with
      | panic => rw [hst] at h; simp at h
      | error e' =>
        rw [hst] at h
        injection h with h
        subst h
        obtain ⟨j, s, out, he, _, hget, hok, hmem⟩ := validateStores_error_at _ _ _ _ hst
        left
        exact ⟨hv, hn, j, s, out, he, by simpa using hget, by simpa using hok, hmem⟩
      | ok out =>
        rw [hst] at h
        obtain ⟨i, he, _, hlt, hok⟩ := validateRequests_error_at _ _ _ _ _ h
        right
        exact ⟨hv, hn, out, i, rfl, he, by simpa using hlt, by simpa using hok⟩
  · left
    simp only [hv, ne_eq, not_false_eq_true, if_true] at h
    injection h with h
    exact ⟨hv, h.symm⟩

/-! ## The lookup of a store -/

theorem getStoreConfigLoop_some_iff (a : String) (ss : List (Option StoreConfig))
    (s : StoreConfig) :
    Config.getStoreConfigLoop a ss = .ok (some s) ↔
      ∃ (pre : List StoreConfig) (post : List (Option StoreConfig)),
        ss = pre.map some ++ some s :: post ∧ a ∉ pre.map StoreConfig.getAlias ∧
          s.getAlias = a := by
  induction ss with
  | nil => simp [Config.getStoreConfigLoop]
  | cons x rest ih =>
    cases x with
    | none =>
      simp only [Config.getStoreConfigLoop]
      constructor
      · intro h; cases h
      · rintro ⟨pre, post, h, _⟩
        cases pre <;> simp at h
    | some x =>
      simp only [Config.getStoreConfigLoop]
      by_cases hx : x.getAlias = a
      · simp only [hx, if_true]
        constructor
        · intro h
          injection h with h
          injection h with h
          subst h
          exact ⟨[], rest, rfl, by simp, hx⟩
        · rintro ⟨pre, post, h, hpre, _⟩
          cases pre with
          | nil =>
            simp only [List.map_nil, List.nil_append, List.cons.injEq, Option.some.injEq] at h
            rw [h.1]
          | cons p pre =>
            simp only [List.map_cons, List.cons_append, List.cons.injEq, Option.some.injEq] at h
            simp only [List.map_cons, List.mem_cons, not_or] at hpre
            exact absurd (h.1 ▸ hx).symm hpre.1
      · simp only [hx, if_false, ih]
        constructor
        · rintro ⟨pre, post, h, hpre, hs⟩
          refine ⟨x :: pre, post, by simp [h], ?_, hs⟩
          simp only [List.map_cons, List.mem_cons, not_or]
          exact ⟨fun h => hx h.symm, hpre⟩
        · rintro ⟨pre, post, h, hpre, hs⟩
          cases pre with
          | nil =>
            simp only [List.map_nil, List.nil_append, List.cons.injEq, Option.some.injEq] at h
            exact absurd (h.1 ▸ hs) hx
          | cons p pre =>
            simp only [List.map_cons, List.cons_append, List.cons.injEq, Option.some.injEq] at h
            simp only [List.map_cons, List.mem_cons, not_or] at hpre
            exact ⟨pre, post, h.2, hpre.2, hs⟩

theorem getStoreConfigLoop_none_iff (a : String) (ss : List (Option StoreConfig)) :
    Config.getStoreConfigLoop a ss = .ok none ↔ none ∉ ss ∧ a ∉ aliasesOf ss := by
  induction ss with
  | nil => simp [Config.getStoreConfigLoop, aliasesOf]
  | cons x rest ih =>
    cases x with
    | none => simp [Config.getStoreConfigLoop]
    | some x =>
      simp only [Config.getStoreConfigLoop]
      by_cases hx : x.getAlias = a
      · simp [hx, aliasesOf, List.reduceOption_cons_of_some]
      · simp only [hx, if_false, ih]
        simp [aliasesOf, List.reduceOption_cons_of_some, Ne.symm hx]

theorem getStoreConfigLoop_find (a : String) (ss : List (Option StoreConfig)) (h : none ∉ ss) :
    Config.getStoreConfigLoop a ss
      = .ok (ss.reduceOption.find? (fun s => decide (s.getAlias = a))) := by
  induction ss with
  | nil => rfl
  | cons x rest ih =>
    simp only [List.mem_cons, not_or] at h
    cases x with
    | none => exact absurd rfl h.1
    | some x =>
      simp only [Config.getStoreConfigLoop, List.reduceOption_cons_of_some, List.find?_cons]
      by_cases hx : x.getAlias = a
      · simp [hx]
      · simp [hx, ih h.2]

/-! ## Counting the requests -/

theorem length_le_of_nodup_of_keys (ts ss : List String) (ks : List requestsKey)
    (hnd : ks.Nodup) (hsub : ∀ k ∈ ks, k.Typ ∈ ts ∧ k.Store ∈ ss) :
    ks.length ≤ ts.length * ss.length := by
  have hinj : Function.Injective (fun k : requestsKey => (k.Typ, k.Store)) := by
    rintro ⟨a, b⟩ ⟨a', b'⟩ h
    simp only [Prod.mk.injEq] at h
    rw [h.1, h.2]
  have hnd' : (ks.map (fun k : requestsKey => (k.Typ, k.Store))).Nodup := hnd.map hinj
  have hsub' : ks.map (fun k : requestsKey => (k.Typ, k.Store)) ⊆ ts.product ss := by
    intro p hp
    obtain ⟨k, hk, rfl⟩ := List.mem_map.1 hp
    exact List.mem_product.2 (hsub k hk)
  have hlen := (List.subperm_of_subset hnd' hsub').length_le
  have hprod : (ts.product ss).length = ts.length * ss.length := List.length_product ts ss
  rw [List.length_map, hprod] at hlen
  exact hlen

/-! ## Declaration order -/

theorem namesOf_perm {cs cs' : List (Option Request)} (h : cs.Perm cs') :
    (namesOf cs).Perm (namesOf cs') :=
  (h.filterMap id).map _

theorem aliasesOf_perm {ss ss' : List (Option StoreConfig)} (h : ss.Perm ss') :
    (aliasesOf ss).Perm (aliasesOf ss') :=
  (h.filterMap id).map _

theorem keysOf_perm {rs rs' : List (Option CredentialRequest)} (h : rs.Perm rs') :
    (keysOf rs).Perm (keysOf rs') :=
  (h.filterMap id).map _

theorem WellFormed_of_perm (r r' : CredentialRequest) (ht : r'.Typ = r.Typ)
    (hs : r'.Store = r.Store) (hc : r.Credentials.Perm r'.Credentials) :
    r.WellFormed ↔ r'.WellFormed := by
  have hn := namesOf_perm hc
  have hnil : r.Credentials = [] ↔ r'.Credentials = [] := by
    constructor
    · intro h; rw [h] at hc; exact (List.nil_perm.1 hc)
    · intro h; rw [h] at hc; exact (List.perm_nil.1 hc)
  simp only [CredentialRequest.WellFormed, ht, hs, ne_eq, hnil, hc.mem_iff, hn.mem_iff,
    hn.nodup_iff]

theorem requests_reordered (A A' : List String) (hA : ∀ x, x ∈ A ↔ x ∈ A')
    (l l' : List (Option CredentialRequest))
    (h : List.Forall₂ CredentialRequest.Reordered l l') :
    (none ∉ l ↔ none ∉ l') ∧ keysOf l = keysOf l' ∧
      ((∀ r ∈ l.reduceOption, r.Passes A) ↔ ∀ r ∈ l'.reduceOption, r.Passes A') := by
  induction h with
  | nil => simp [keysOf]
  | @cons x x' l l' hx _ ih =>
    obtain ⟨ih1, ih2, ih3⟩ := ih
    cases x with
    | none =>
      cases x' with
      | none =>
        refine ⟨by simp, ?_, by simpa [List.reduceOption_cons_of_none] using ih3⟩
        simp only [keysOf, List.reduceOption_cons_of_none] at ih2 ⊢
        exact ih2
      | some r' => exact absurd hx (by simp [CredentialRequest.Reordered])
    | some r =>
      cases x' with
      | none => exact absurd hx (by simp [CredentialRequest.Reordered])
      | some r' =>
        obtain ⟨ht, hs, hc⟩ := hx
        have hp : r.Passes A ↔ r'.Passes A' := by
          simp only [CredentialRequest.Passes, WellFormed_of_perm r r' ht hs hc, ht, hs, hA]
        have hk : r.key = r'.key := by simp [CredentialRequest.key, ht, hs]
        refine ⟨?_, ?_, ?_⟩
        · simpa using ih1
        · simp only [keysOf, List.reduceOption_cons_of_some, List.map_cons, hk]
          simp only [keysOf] at ih2
          rw [ih2]
        · simp only [List.reduceOption_cons_of_some, List.forall_mem_cons, hp, ih3]

theorem Valid_of_reordered (c c' : Config) (h : c.Reordered c') : c.Valid ↔ c'.Valid := by
  obtain ⟨hv, hn, hst, rs, hperm, hrs⟩ := h
  have hal := aliasesOf_perm hst
  have hA : ∀ x, x ∈ aliasesOf c.Stores ↔ x ∈ aliasesOf c'.Stores := fun x => hal.mem_iff
  obtain ⟨h1, h2, h3⟩ := requests_reordered (aliasesOf c.Stores) (aliasesOf c'.Stores) hA rs
    c'.Requests hrs
  have hred : c.Requests.reduceOption.Perm rs.reduceOption := hperm.filterMap id
  have hall : (∀ r ∈ c.Requests.reduceOption, r.Passes (aliasesOf c.Stores)) ↔
      ∀ r ∈ rs.reduceOption, r.Passes (aliasesOf c.Stores) := by
    constructor
    · intro hh r hr; exact hh r (hred.mem_iff.2 hr)
    · intro hh r hr; exact hh r (hred.mem_iff.1 hr)
  simp only [Config.Valid, hv, hn, hst.mem_iff, hal.nodup_iff, hperm.mem_iff,
    (keysOf_perm hperm).nodup_iff, hall, h1, h2, h3]

/-! ## The claims -/

/-- C1. `Validate` returns no error if and only if the configuration meets the
requirements of the specification (`Config.Valid`): version 1, a non-empty
namespace, pairwise distinct effective store aliases, and requests that each
have a non-empty recognized `Type`, a non-empty `Store` that is a declared
alias, a non-empty list of credentials with non-empty pairwise distinct names,
and pairwise distinct `(Type, Store)` pairs (a nil entry has none of these, so a
configuration with one is on neither side).  In particular a configuration with
version 1, a non-empty namespace, no stores and no requests is accepted. -/
theorem Validate_accepts_iff_valid :
    (∀ c : Config, Config.Validate (some c) = .ok () ↔ c.Valid) ∧
      ∀ ns : String, ns ≠ "" →
        Config.Validate (some { Version := 1, Namespace := ns, Stores := [], Requests := [] })
          = .ok () := by
  refine ⟨Validate_ok_iff, fun ns hns => ?_⟩
  rw [Validate_ok_iff]
  simp [Config.Valid, hns, aliasesOf, keysOf]

/-- Witness of C1: the configuration of the test `works` is valid and accepted,
and so is the configuration of `TestProcessCleanup`, which has no stores and no
requests. -/
theorem Validate_accepts_iff_valid_witness :
    worksConfig.Valid ∧ Config.Validate (some worksConfig) = .ok () ∧
      Config.Validate (some cleanupConfig) = .ok () :=
  ⟨by decide, (Validate_accepts_iff_valid.1 worksConfig).2 (by decide),
    Validate_accepts_iff_valid.2 "team-name" (by decide)⟩

/-- C2. In a configuration with version 1 and a non-empty namespace in which two
stores share an effective alias, `Validate` fails with
`stores[j]: duplicate alias "a"`, where `j` is the least index whose effective
alias `a` is that of an earlier store, whatever the requests are.  A store with
no alias and type `t` collides in this way with a store whose explicit alias is
`t`, in either order. -/
theorem Validate_duplicate_alias :
    (∀ c : Config, c.Version = 1 → c.Namespace ≠ "" → none ∉ c.Stores →
        ¬ (aliasesOf c.Stores).Nodup →
        ∃ j a, (aliasesOf c.Stores)[j]? = some a ∧ a ∈ (aliasesOf c.Stores).take j ∧
          ((aliasesOf c.Stores).take j).Nodup ∧
          Config.Validate (some c) = .error (.duplicateAlias j a) ∧
          ∀ q, (ConfigError.duplicateAlias j a).message q =
            "stores[" ++ toString j ++ "]: duplicate alias " ++ q a) ∧
      ∀ (t u ns : String) (b₁ b₂ : List Nat) (rs : List (Option CredentialRequest)),
        t ≠ "" → ns ≠ "" →
        Config.Validate (some ⟨1, ns, [some ⟨t, "", b₁⟩, some ⟨u, t, b₂⟩], rs⟩)
            = .error (.duplicateAlias 1 t) ∧
          Config.Validate (some ⟨1, ns, [some ⟨u, t, b₁⟩, some ⟨t, "", b₂⟩], rs⟩)
            = .error (.duplicateAlias 1 t) := by
  constructor
  · intro c hv hn hs hdup
    have hss := map_some_reduceOption c.Stores hs
    obtain ⟨pre, x, post, hsplit, hpre, hx⟩ :=
      exists_first_duplicate StoreConfig.getAlias c.Stores.reduceOption hdup
    have hal : aliasesOf c.Stores =
        pre.map StoreConfig.getAlias ++ x.getAlias :: post.map StoreConfig.getAlias := by
      simp [aliasesOf, hsplit]
    have htake : (aliasesOf c.Stores).take pre.length = pre.map StoreConfig.getAlias := by
      rw [hal, List.take_append_of_le_length (by simp), List.take_of_length_le (by simp)]
    refine ⟨pre.length, x.getAlias, ?_, htake ▸ hx, htake ▸ hpre, ?_, fun q => rfl⟩
    · rw [hal, List.getElem?_append_right (by simp)]; simp
    · have hst : c.Stores = pre.map some ++ (some x :: post.map some) := by
        rw [← hss, hsplit]; simp
      simp only [Config.Validate, hv, hn, ne_eq, not_true_eq_false, if_false, hst]
      rw [validateStores_append pre _ 0 [] hpre (by simp)]
      simp [Config.validateStores, StoreConfig.validate, hx]
  · intro t u ns b₁ b₂ rs ht hns
    simp [Config.Validate, Config.validateStores, StoreConfig.validate, StoreConfig.getAlias,
      ht, hns]

/-- Witness of C2: two stores with alias `x` give `stores[1]: duplicate alias "x"`. -/
theorem Validate_duplicate_alias_witness :
    (∃ j a, (aliasesOf duplicateAliasConfig.Stores)[j]? = some a ∧
        a ∈ (aliasesOf duplicateAliasConfig.Stores).take j ∧
        ((aliasesOf duplicateAliasConfig.Stores).take j).Nodup ∧
        Config.Validate (some duplicateAliasConfig) = .error (.duplicateAlias j a) ∧
        ∀ q, (ConfigError.duplicateAlias j a).message q =
          "stores[" ++ toString j ++ "]: duplicate alias " ++ q a) ∧
      Config.Validate (some duplicateAliasConfig) = .error (.duplicateAlias 1 "x") ∧
      (ConfigError.duplicateAlias 1 "x").message quotePlain = "stores[1]: duplicate alias \"x\"" :=
  ⟨Validate_duplicate_alias.1 duplicateAliasConfig (by decide) (by decide) (by decide)
    (by decide), by decide, by decide⟩

/-- C3. In a configuration with version 1, a non-empty namespace and pairwise
distinct effective store aliases, let `requests[i]` be the first request that
repeats the `(Type, Store)` pair of an earlier one; if every request before it
passes all checks and `requests[i]` is structurally valid with a recognized
`Type` and a declared `Store`, then `Validate` fails with
`requests[i]: duplicate request: {Type:<type> Store:<store>}`. -/
theorem Validate_duplicate_request (c : Config) (pre : List CredentialRequest)
    (r : CredentialRequest) (post : List (Option CredentialRequest))
    (hv : c.Version = 1) (hn : c.Namespace ≠ "")
    (hs : none ∉ c.Stores) (hnd : (aliasesOf c.Stores).Nodup)
    (hr : c.Requests = pre.map some ++ some r :: post)
    (hpre : ∀ p ∈ pre, p.Passes (aliasesOf c.Stores))
    (hkeys : (pre.map CredentialRequest.key).Nodup)
    (hpass : r.Passes (aliasesOf c.Stores))
    (hrep : r.key ∈ pre.map CredentialRequest.key) :
    Config.Validate (some c) = .error (.duplicateRequest pre.length r.key) ∧
      ∀ q, (ConfigError.duplicateRequest pre.length r.key).message q =
        "requests[" ++ toString pre.length ++ "]: duplicate request: \x7bType:" ++ r.Typ
          ++ " Store:" ++ r.Store ++ "\x7d" := by
  refine ⟨?_, fun q => rfl⟩
  rw [Validate_at_request c pre _ hv hn hs hnd hr hpre hkeys,
    validateRequests_step _ r post _ _ hpass.1]
  simp [(isRecognized_iff _).2 hpass.2.1, hpass.2.2, hrep]

/-- Witness of C3: the test `errors on duplicate requests`, two requests with
type `aws:sts` and store `concourse`, gives
`requests[1]: duplicate request: {Type:aws:sts Store:concourse}`. -/
theorem Validate_duplicate_request_witness :
    Config.Validate (some duplicateRequestsConfig)
        = .error (.duplicateRequest 1 { Typ := "aws:sts", Store := "concourse" }) ∧
      (ConfigError.duplicateRequest 1 { Typ := "aws:sts", Store := "concourse" }).message
          quotePlain
        = "requests[1]: duplicate request: \x7bType:aws:sts Store:concourse\x7d" :=
  ⟨(Validate_duplicate_request duplicateRequestsConfig
      [{ Typ := "aws:sts", Store := "concourse", Credentials := [some readOnlyCredential] }]
      { Typ := "aws:sts", Store := "concourse", Credentials := [some readOnlyCredential] } []
      (by decide) (by decide) (by decide) (by decide) (by decide) (by decide) (by decide)
      (by decide) (by decide)).1, by decide⟩

/-- C4. In a configuration with version 1, a non-empty namespace and pairwise
distinct effective store aliases, if every request before index `i` passes all
checks and `requests[i]` is structurally valid with a recognized `Type` but its
`Store` is the effective alias of no declared store, then `Validate` fails with
`requests[i]: invalid store alias: "<store>"`.  In particular the only store of
a configuration, declared with a non-empty alias different from its type, is not
reached by its type string. -/
theorem Validate_invalid_store_alias (c : Config) (pre : List CredentialRequest)
    (r : CredentialRequest) (post : List (Option CredentialRequest))
    (hv : c.Version = 1) (hn : c.Namespace ≠ "")
    (hs : none ∉ c.Stores) (hnd : (aliasesOf c.Stores).Nodup)
    (hr : c.Requests = pre.map some ++ some r :: post)
    (hpre : ∀ p ∈ pre, p.Passes (aliasesOf c.Stores))
    (hkeys : (pre.map CredentialRequest.key).Nodup)
    (hwf : r.WellFormed) (hrec : r.Typ ∈ recognizedTypes)
    (hundecl : r.Store ∉ aliasesOf c.Stores) :
    (Config.Validate (some c) = .error (.invalidStoreAlias pre.length r.Store) ∧
      ∀ q, (ConfigError.invalidStoreAlias pre.length r.Store).message q =
        "requests[" ++ toString pre.length ++ "]: invalid store alias: " ++ q r.Store) ∧
      ∀ (s : StoreConfig) (ns : String), ns ≠ "" → s.Alias ≠ "" → s.Alias ≠ s.Typ →
        r.Store = s.Typ →
        Config.Validate (some ⟨1, ns, [some s], some r :: post⟩)
          = .error (.invalidStoreAlias 0 s.Typ) := by
  refine ⟨⟨?_, fun q => rfl⟩, ?_⟩
  · rw [Validate_at_request c pre _ hv hn hs hnd hr hpre hkeys,
      validateRequests_step _ r post _ _ hwf]
    simp [(isRecognized_iff _).2 hrec, hundecl]
  · intro s ns hns ha hne hst
    rw [Validate_at_request ⟨1, ns, [some s], some r :: post⟩ [] (some r :: post) rfl hns
      (by simp) (by simp [aliasesOf]) rfl (by simp) (by simp),
      validateRequests_step _ r post _ _ hwf]
    simp [(isRecognized_iff _).2 hrec, aliasesOf, StoreConfig.getAlias, ha, hst, Ne.symm hne]

/-- Witness of C4: the test `errors if alias does not exist`, a store of type
`secretsmanager` with alias `concourse` and a request for the store
`secretsmanager`, gives `requests[0]: invalid store alias: "secretsmanager"`. -/
theorem Validate_invalid_store_alias_witness :
    Config.Validate (some aliasMissingConfig) = .error (.invalidStoreAlias 0 "secretsmanager") ∧
      (ConfigError.invalidStoreAlias 0 "secretsmanager").message quotePlain
        = "requests[0]: invalid store alias: \"secretsmanager\"" :=
  ⟨(Validate_invalid_store_alias aliasMissingConfig []
      { Typ := "aws:sts", Store := "secretsmanager", Credentials := [some readOnlyCredential] } []
      (by decide) (by decide) (by decide) (by decide) (by decide) (by decide) (by decide)
      (by decide) (by decide) (by decide)).1.1, by decide⟩

/-- C5. In a configuration with version 1, a non-empty namespace and pairwise
distinct effective store aliases, if every request before index `i` passes all
checks and `requests[i]` has a non-empty `Type`, a non-empty `Store` and a
credentials list in which `j` is the least index whose name is empty or repeats
an earlier name, and `credentials[j]` has a non-empty name `n`, then `Validate`
fails with `requests[i]: invalid request: credentials[j]: duplicate name "n"`,
whether or not the `Type` of `requests[i]` is recognized and its `Store`
declared. -/
theorem Validate_duplicate_credential_name (c : Config) (pre : List CredentialRequest)
    (r : CredentialRequest) (post : List (Option CredentialRequest))
    (cpre : List Request) (cc : Request) (cpost : List (Option Request))
    (hv : c.Version = 1) (hn : c.Namespace ≠ "")
    (hs : none ∉ c.Stores) (hnd : (aliasesOf c.Stores).Nodup)
    (hr : c.Requests = pre.map some ++ some r :: post)
    (hpre : ∀ p ∈ pre, p.Passes (aliasesOf c.Stores))
    (hkeys : (pre.map CredentialRequest.key).Nodup)
    (ht : r.Typ ≠ "") (hst : r.Store ≠ "")
    (hc : r.Credentials = cpre.map some ++ some cc :: cpost)
    (hnames : "" ∉ cpre.map Request.Name) (hdistinct : (cpre.map Request.Name).Nodup)
    (hname : cc.Name ≠ "") (hrep : cc.Name ∈ cpre.map Request.Name) :
    Config.Validate (some c)
        = .error (.invalidRequest pre.length (.duplicateName cpre.length cc.Name)) ∧
      ∀ q, (ConfigError.invalidRequest pre.length
          (.duplicateName cpre.length cc.Name)).message q =
        "requests[" ++ toString pre.length ++ "]: invalid request: " ++
          ("credentials[" ++ toString cpre.length ++ "]: duplicate name " ++ q cc.Name) := by
  refine ⟨?_, fun q => rfl⟩
  rw [Validate_at_request c pre _ hv hn hs hnd hr hpre hkeys]
  simp only [Config.validateRequests,
    validate_duplicate_name r cpre cc cpost ht hst hc hnames hdistinct hname hrep]

/-- Witness of C5: the test `errors on duplicate credential names`, whose request
names the undeclared store `concourse`, gives `requests[0]: invalid request:
credentials[1]: duplicate name "open-source-dev-read-only"`. -/
theorem Validate_duplicate_credential_name_witness :
    "concourse" ∉ aliasesOf duplicateNamesConfig.Stores ∧
      Config.Validate (some duplicateNamesConfig)
        = .error (.invalidRequest 0 (.duplicateName 1 "open-source-dev-read-only")) ∧
      (ConfigError.invalidRequest 0 (.duplicateName 1 "open-source-dev-read-only")).message
          quotePlain
        = "requests[0]: invalid request: credentials[1]: duplicate name \"open-source-dev-read-only\"" :=
  ⟨by decide, (Validate_duplicate_credential_name duplicateNamesConfig []
      { Typ := "aws:sts", Store := "concourse",
        Credentials := [some readOnlyCredential, some readOnlyCredential] } []
      [readOnlyCredential] readOnlyCredential []
      (by decide) (by decide) (by decide) (by decide) (by decide) (by decide) (by decide)
      (by decide) (by decide) (by decide) (by decide) (by decide) (by decide) (by decide)).1,
    by decide⟩

/-- C6. The alias of a store defaults to its type, so a request may name an
alias-less store by its type: for every non-empty store type `t`, recognized
credential type `ct`, non-empty namespace `ns` and non-empty credential name
`n`, `Validate` accepts the configuration with version 1, namespace `ns`, the
one store of type `t` without alias, and the one request of type `ct` for the
store `t` with the one credential `n`. -/
theorem Validate_accepts_default_alias (t ct ns n : String) (b₁ b₂ : List Nat)
    (ot : CredentialType) (ht : t ≠ "") (hct : ct ∈ recognizedTypes) (hns : ns ≠ "")
    (hname : n ≠ "") :
    Config.Validate (some
      { Version := 1, Namespace := ns, Stores := [some { Typ := t, Alias := "", Config := b₁ }],
        Requests := [some { Typ := ct, Store := t,
                            Credentials := [some { Typ := ot, Name := n, Config := b₂ }] }] })
      = .ok () := by
  rw [Validate_ok_iff]
  have hct2 := recognized_ne_empty ct hct
  simp [Config.Valid, hns, aliasesOf, keysOf, CredentialRequest.Passes,
    CredentialRequest.WellFormed, namesOf, StoreConfig.getAlias, hct, hct2, ht, hname,
    List.reduceOption_cons_of_some]

/-- Witness of C6: the test `works`, a store of type `secretsmanager` without
alias and a request of type `aws:sts` for the store `secretsmanager`. -/
theorem Validate_accepts_default_alias_witness :
    Config.Validate (some worksConfig) = .ok () :=
  Validate_accepts_default_alias "secretsmanager" "aws:sts" "cloudops"
    "open-source-dev-read-only" [] [] "" (by decide) (by decide) (by decide) (by decide)

/-- Counterexample to C7: `Validate` panics, with a nil dereference, on a nil
receiver, at a nil store, at a nil request and at a nil credential. -/
theorem Validate_panics_on_nil :
    Config.Validate none = .panic ∧ Config.Validate (some nilStoreConfig) = .panic ∧
      Config.Validate (some nilRequestConfig) = .panic ∧
      Config.Validate (some nilCredentialConfig) = .panic := by
  decide

/-- C7, amended. On a non-nil configuration whose stores, requests and
credentials lists have no nil entry, `Validate` returns success or an error
value and does not panic; on a nil receiver it panics.  (`Validate` writes no
field of the configuration: its embedding is a function of it.) -/
theorem Validate_total_of_no_nil (c : Config) (hs : none ∉ c.Stores) (hr : none ∉ c.Requests)
    (hc : ∀ r ∈ c.Requests.reduceOption, none ∉ r.Credentials) :
    (Config.Validate (some c) = .ok () ∨ ∃ e, Config.Validate (some c) = .error e) ∧
      Config.Validate (some c) ≠ .panic ∧ Config.Validate none = .panic := by
  have hp : Config.Validate (some c) ≠ .panic := by
    simp only [Config.Validate]
    split_ifs
    · simp
    · simp
    · cases hst : Config.validateStores c.Stores 0 [] with
      | panic => exact absurd hst (validateStores_ne_panic _ _ _ hs)
      | error e => simp
      | ok stores => exact validateRequests_ne_panic _ _ _ _ hr hc
  refine ⟨?_, hp, rfl⟩
  cases hv : Config.Validate (some c) with
  | ok u => exact Or.inl rfl
  | error e => exact Or.inr ⟨e, rfl⟩
  | panic => exact absurd hv hp

/-- Witness of C7, amended: the configuration of the test `errors if alias does
not exist` has no nil entry, and `Validate` returns an error on it. -/
theorem Validate_total_of_no_nil_witness :
    (Config.Validate (some aliasMissingConfig) = .ok () ∨
        ∃ e, Config.Validate (some aliasMissingConfig) = .error e) ∧
      Config.Validate (some aliasMissingConfig) ≠ .panic ∧ Config.Validate none = .panic :=
  Validate_total_of_no_nil aliasMissingConfig (by decide) (by decide) (by decide)

/-- Counterexample to C8: `Validate` accepts the configuration of the test
`works` and rejects it once the credentials list of its request is replaced by
the empty list, with `requests[0]: invalid request: no credentials requested`;
the cleanup configuration of the `Process` tests (`store: inprocess,
credentials: []`, no type) is rejected too. -/
theorem Validate_rejects_empty_credentials :
    Config.Validate (some worksConfig) = .ok () ∧
      Config.Validate (some worksEmptiedConfig) = .error (.invalidRequest 0 .noCredentials) ∧
      (ConfigError.invalidRequest 0 .noCredentials).message quotePlain
        = "requests[0]: invalid request: no credentials requested" ∧
      Config.Validate (some noRequestsConfig) = .error (.invalidRequest 0 .typeUndefined) := by
  decide

/-- C8, amended. An empty credentials list is rejected: for every configuration
that `Validate` accepts, replacing the credentials list of any one request, at
index `i`, by the empty list gives a configuration on which `Validate` fails with
`requests[i]: invalid request: no credentials requested`. -/
theorem Validate_emptied_credentials (c : Config) (pre post : List (Option CredentialRequest))
    (r : CredentialRequest) (hr : c.Requests = pre ++ some r :: post)
    (hok : Config.Validate (some c) = .ok ()) :
    Config.Validate (some { c with
        Requests := pre ++ some { r with Credentials := [] } :: post })
        = .error (.invalidRequest pre.length .noCredentials) ∧
      ∀ q, (ConfigError.invalidRequest pre.length .noCredentials).message q =
        "requests[" ++ toString pre.length ++ "]: invalid request: " ++
          "no credentials requested" := by
  refine ⟨?_, fun q => rfl⟩
  obtain ⟨hv, hn, hs, hnd, hnr, hpass, hkeys⟩ := (Validate_ok_iff c).1 hok
  rw [hr] at hnr hpass hkeys
  have hpre : none ∉ pre := fun h => hnr (List.mem_append_left _ h)
  have hpre' := map_some_reduceOption pre hpre
  have hrp : r.Passes (aliasesOf c.Stores) :=
    hpass r (by simp [List.reduceOption_append, List.reduceOption_cons_of_some])
  have key := Validate_at_request
    { c with Requests := pre ++ some { r with Credentials := [] } :: post } pre.reduceOption
    (some { r with Credentials := [] } :: post) hv hn hs hnd (by simp [hpre'])
    (fun p hp => hpass p (by simp [List.reduceOption_append, hp]))
    (by
      have := hkeys
      simp only [keysOf, List.reduceOption_append, List.map_append, List.nodup_append] at this
      exact this.1)
  rw [key]
  have hlen : pre.reduceOption.length = pre.length := by
    conv_rhs => rw [← hpre']
    simp
  simp [Config.validateRequests, CredentialRequest.validate, hrp.1.1, hrp.1.2.1, hlen]

/-- Witness of C8, amended: the configuration of the test `works`, emptied of the
credentials of its request. -/
theorem Validate_emptied_credentials_witness :
    Config.Validate (some worksEmptiedConfig) = .error (.invalidRequest 0 .noCredentials) :=
  (Validate_emptied_credentials worksConfig [] []
    { Typ := "aws:sts", Store := "secretsmanager", Credentials := [some readOnlyCredential] }
    (by decide) (by decide)).1

/-- Counterexample to C9: the configuration of the test `sidecred works`, whose
one request names the declared store `inprocess` and one uniquely named
credential with its own type but has no request-level type, is rejected with
`requests[0]: invalid request: "type" must be defined`. -/
theorem Validate_rejects_missing_type :
    sidecredWorksConfig.Requests.reduceOption.map CredentialRequest.Store
        = aliasesOf sidecredWorksConfig.Stores ∧
      Config.Validate (some sidecredWorksConfig) = .error (.invalidRequest 0 .typeUndefined) ∧
      Config.Validate (some sidecredWorksConfig) ≠ .ok () ∧
      (ConfigError.invalidRequest 0 .typeUndefined).message quotePlain
        = "requests[0]: invalid request: \"type\" must be defined" := by
  decide

/-- C9, amended. The request-level `type` of a `CredentialRequest` is required: a
configuration with version 1, a non-empty namespace, one store, and one request
with no request-level type is rejected by `Validate` with
`requests[0]: invalid request: "type" must be defined`, whatever the store and
the credentials of the request are. -/
theorem Validate_requires_request_type (ns : String) (s : StoreConfig) (r : CredentialRequest)
    (hns : ns ≠ "") (ht : r.Typ = "") :
    Config.Validate (some { Version := 1, Namespace := ns, Stores := [some s],
                            Requests := [some r] })
        = .error (.invalidRequest 0 .typeUndefined) ∧
      ∀ q, (ConfigError.invalidRequest 0 .typeUndefined).message q =
        "requests[" ++ toString 0 ++ "]: invalid request: " ++ (q "type" ++ " must be defined") := by
  refine ⟨?_, fun q => rfl⟩
  simp [Config.Validate, Config.validateStores, StoreConfig.validate, Config.validateRequests,
    CredentialRequest.validate, hns, ht]

/-- Witness of C9, amended: the configuration of the test `sidecred works`. -/
theorem Validate_requires_request_type_witness :
    Config.Validate (some sidecredWorksConfig) = .error (.invalidRequest 0 .typeUndefined) :=
  (Validate_requires_request_type "team-name" { Typ := "inprocess", Alias := "", Config := [] }
    { Typ := "", Store := "inprocess",
      Credentials := [some { Typ := "fake", Name := "fake.state.id", Config := [] }] }
    (by decide) (by decide)).1

/-- C10. In a configuration with version 1, a non-empty namespace and pairwise
distinct effective store aliases, if every request before index `i` passes all
checks and `requests[i]` is structurally valid but its `Type` is none of
`aws:sts`, `github:access-token`, `github:deploy-key`,
`artifactory:access-token`, `random`, then `Validate` fails with
`requests[i]: unknown type: <type>`, whether or not its `Store` is declared.
Conversely, whenever `Validate` fails with `requests[i]: unknown type: t` on any
configuration, `requests[i]` has the type `t` and `t` is none of the five. -/
theorem Validate_unknown_type (c : Config) (pre : List CredentialRequest)
    (r : CredentialRequest) (post : List (Option CredentialRequest))
    (hv : c.Version = 1) (hn : c.Namespace ≠ "")
    (hs : none ∉ c.Stores) (hnd : (aliasesOf c.Stores).Nodup)
    (hr : c.Requests = pre.map some ++ some r :: post)
    (hpre : ∀ p ∈ pre, p.Passes (aliasesOf c.Stores))
    (hkeys : (pre.map CredentialRequest.key).Nodup)
    (hwf : r.WellFormed) (hunrec : r.Typ ∉ recognizedTypes) :
    (Config.Validate (some c) = .error (.unknownType pre.length r.Typ) ∧
      ∀ q, (ConfigError.unknownType pre.length r.Typ).message q =
        "requests[" ++ toString pre.length ++ "]: unknown type: " ++ r.Typ) ∧
      ∀ (c' : Config) (i : Nat) (t : CredentialType),
        Config.Validate (some c') = .error (.unknownType i t) →
        ∃ r', c'.Requests[i]? = some (some r') ∧ r'.Typ = t ∧ t ∉ recognizedTypes := by
  refine ⟨⟨?_, fun q => rfl⟩, ?_⟩
  · rw [Validate_at_request c pre _ hv hn hs hnd hr hpre hkeys,
      validateRequests_step _ r post _ _ hwf]
    simp [(isRecognized_false_iff _).2 hunrec]
  · intro c' i t h
    simp only [Config.Validate] at h
    split_ifs at h
    · simp at h
    · simp at h
    · cases hst : Config.validateStores c'.Stores 0 [] with
      | panic => rw [hst] at h; simp at h
      | error e =>
        rw [hst] at h
        obtain ⟨j, a, he⟩ := validateStores_error _ _ _ _ hst
        rw [he] at h
        simp at h
      | ok stores =>
        rw [hst] at h
        obtain ⟨r', _, hget, hty, hnr⟩ := validateRequests_unknownType _ _ _ _ _ _ h
        exact ⟨r', by simpa using hget, hty, hnr⟩

/-- Witness of C10: a structurally valid request of the unrecognized type `fake`
for the undeclared store `concourse` gives `requests[0]: unknown type: fake`. -/
theorem Validate_unknown_type_witness :
    "concourse" ∉ aliasesOf unknownTypeConfig.Stores ∧
      Config.Validate (some unknownTypeConfig) = .error (.unknownType 0 "fake") ∧
      (ConfigError.unknownType 0 "fake").message quotePlain
        = "requests[0]: unknown type: fake" :=
  ⟨by decide, (Validate_unknown_type unknownTypeConfig []
      { Typ := "fake", Store := "concourse",
        Credentials := [some { Typ := "", Name := "fake.state.id", Config := [] }] } []
      (by decide) (by decide) (by decide) (by decide) (by decide) (by decide) (by decide)
      (by decide) (by decide)).1.1, by decide⟩

/-- C11. Credential names must be non-empty: for a request with a non-empty
`Type`, a non-empty `Store` and a credentials list in which `j` is the least
index whose name is empty or repeats an earlier name, if the name of
`credentials[j]` is empty, then `CredentialRequest.validate` fails with
`credentials[j]: "name" must be defined`; and `Validate` reports it as
`requests[i]: invalid request: credentials[j]: "name" must be defined` when the
request is `requests[i]` of a configuration with version 1, a non-empty
namespace and pairwise distinct store aliases whose earlier requests pass all
checks. -/
theorem Validate_missing_credential_name (c : Config) (pre : List CredentialRequest)
    (r : CredentialRequest) (post : List (Option CredentialRequest))
    (cpre : List Request) (cc : Request) (cpost : List (Option Request))
    (hv : c.Version = 1) (hn : c.Namespace ≠ "")
    (hs : none ∉ c.Stores) (hnd : (aliasesOf c.Stores).Nodup)
    (hr : c.Requests = pre.map some ++ some r :: post)
    (hpre : ∀ p ∈ pre, p.Passes (aliasesOf c.Stores))
    (hkeys : (pre.map CredentialRequest.key).Nodup)
    (ht : r.Typ ≠ "") (hst : r.Store ≠ "")
    (hc : r.Credentials = cpre.map some ++ some cc :: cpost)
    (hnames : "" ∉ cpre.map Request.Name) (hdistinct : (cpre.map Request.Name).Nodup)
    (hname : cc.Name = "") :
    CredentialRequest.validate (some r) = .error (.nameUndefined cpre.length) ∧
      Config.Validate (some c)
        = .error (.invalidRequest pre.length (.nameUndefined cpre.length)) ∧
      ∀ q, (RequestError.nameUndefined cpre.length).message q =
          "credentials[" ++ toString cpre.length ++ "]: " ++ q "name" ++ " must be defined" ∧
        (ConfigError.invalidRequest pre.length (.nameUndefined cpre.length)).message q =
          "requests[" ++ toString pre.length ++ "]: invalid request: " ++
            ("credentials[" ++ toString cpre.length ++ "]: " ++ q "name" ++ " must be defined") := by
  have hval : CredentialRequest.validate (some r) = .error (.nameUndefined cpre.length) := by
    have hl : r.Credentials.length ≠ 0 := by rw [hc]; simp
    simp only [CredentialRequest.validate, ht, hst, hl, if_false, hc]
    rw [validateCredentials_append cpre _ 0 [] hnames hdistinct (by simp)]
    simp [CredentialRequest.validateCredentials, hname]
  refine ⟨hval, ?_, fun q => ⟨rfl, rfl⟩⟩
  rw [Validate_at_request c pre _ hv hn hs hnd hr hpre hkeys]
  simp only [Config.validateRequests, hval]

/-- Witness of C11: a request whose second credential has no name gives
`requests[0]: invalid request: credentials[1]: "name" must be defined`. -/
theorem Validate_missing_credential_name_witness :
    Config.Validate (some missingNameConfig)
        = .error (.invalidRequest 0 (.nameUndefined 1)) ∧
      (ConfigError.invalidRequest 0 (.nameUndefined 1)).message quotePlain
        = "requests[0]: invalid request: credentials[1]: \"name\" must be defined" :=
  ⟨(Validate_missing_credential_name missingNameConfig []
      { Typ := "aws:sts", Store := "secretsmanager",
        Credentials := [some readOnlyCredential, some { Typ := "", Name := "", Config := [] }] }
      [] [readOnlyCredential] { Typ := "", Name := "", Config := [] } []
      (by decide) (by decide) (by decide) (by decide) (by decide) (by decide) (by decide)
      (by decide) (by decide) (by decide) (by decide) (by decide) (by decide)).2.1, by decide⟩

/-- C12. `Validate` fails with `invalid configuration version: <v>` if and only if
the version is not 1: a configuration with any other version gets this error,
with its version, whatever its namespace, stores and requests are, and no
configuration with version 1 gets it. -/
theorem Validate_invalid_version (c : Config) :
    (c.Version ≠ 1 → Config.Validate (some c) = .error (.invalidVersion c.Version)) ∧
      (c.Version = 1 → ∀ v, Config.Validate (some c) ≠ .error (.invalidVersion v)) ∧
      ((∃ v, Config.Validate (some c) = .error (.invalidVersion v)) ↔ c.Version ≠ 1) ∧
      ∀ q v, (ConfigError.invalidVersion v).message q =
        "invalid configuration version: " ++ toString v := by
  have h1 : c.Version ≠ 1 → Config.Validate (some c) = .error (.invalidVersion c.Version) := by
    intro hv
    simp [Config.Validate, hv]
  have h2 : c.Version = 1 → ∀ v, Config.Validate (some c) ≠ .error (.invalidVersion v) := by
    intro hv v h
    rcases Validate_error_cases c _ h with ⟨hne, _⟩ | ⟨_, _, he⟩ | ⟨_, _, j, s, out, he, _⟩ |
      ⟨_, _, out, i, _, he, _⟩
    · exact hne hv
    · simp at he
    · simp at he
    · simp [ConfigError.requestsIndex] at he
  refine ⟨h1, h2, ⟨?_, fun hv => ⟨_, h1 hv⟩⟩, fun q v => rfl⟩
  rintro ⟨v, h⟩ hv
  exact h2 hv v h

/-- Witness of C12: the versions 0, -1 and 2 are rejected with their version in
the text, whatever else the configuration holds, and version 1 is not. -/
theorem Validate_invalid_version_witness :
    Config.Validate (some { worksConfig with Version := 0 }) = .error (.invalidVersion 0) ∧
      Config.Validate (some { duplicateAliasConfig with Version := -1, Namespace := "" })
        = .error (.invalidVersion (-1)) ∧
      Config.Validate (some { nilStoreConfig with Version := 2 }) = .error (.invalidVersion 2) ∧
      (∃ v, Config.Validate (some worksConfig) = .error (.invalidVersion v)) = False ∧
      (ConfigError.invalidVersion (-1)).message quotePlain = "invalid configuration version: -1" :=
  ⟨(Validate_invalid_version _).1 (by decide), (Validate_invalid_version _).1 (by decide),
    (Validate_invalid_version _).1 (by decide),
    eq_false (fun h => ((Validate_invalid_version worksConfig).2.2.1.1 h) (by decide)),
    by decide⟩

/-- C13. `Validate` fails with `"namespace" must be defined` if and only if the
version is 1 and the namespace is the empty string, whatever the stores and
requests are. -/
theorem Validate_missing_namespace (c : Config) :
    (Config.Validate (some c) = .error .namespaceUndefined ↔
        c.Version = 1 ∧ c.Namespace = "") ∧
      ∀ q, ConfigError.namespaceUndefined.message q = q "namespace" ++ " must be defined" := by
  refine ⟨⟨fun h => ?_, fun h => ?_⟩, fun q => rfl⟩
  · rcases Validate_error_cases c _ h with ⟨_, he⟩ | ⟨hv, hn, _⟩ | ⟨_, _, j, s, out, he, _⟩ |
      ⟨_, _, out, i, _, he, _⟩
    · simp at he
    · exact ⟨hv, hn⟩
    · simp at he
    · simp [ConfigError.requestsIndex] at he
  · simp [Config.Validate, h.1, h.2]

/-- Witness of C13: with version 1 and no namespace the error is
`"namespace" must be defined`, whatever the stores and requests; with a
namespace, or with another version, it is not. -/
theorem Validate_missing_namespace_witness :
    Config.Validate (some { duplicateAliasConfig with Namespace := "" })
        = .error .namespaceUndefined ∧
      Config.Validate (some { nilRequestConfig with Namespace := "" })
        = .error .namespaceUndefined ∧
      Config.Validate (some duplicateAliasConfig) ≠ .error .namespaceUndefined ∧
      Config.Validate (some { worksConfig with Version := 2, Namespace := "" })
        ≠ .error .namespaceUndefined ∧
      ConfigError.namespaceUndefined.message quotePlain = "\"namespace\" must be defined" :=
  ⟨(Validate_missing_namespace _).1.2 (by decide), (Validate_missing_namespace _).1.2 (by decide),
    fun h => absurd ((Validate_missing_namespace _).1.1 h) (by decide),
    fun h => absurd ((Validate_missing_namespace _).1.1 h) (by decide), by decide⟩

/-- C14. Every request of a validated configuration resolves to a declared
store: if `Validate` accepts a configuration, then for every request `r` in it
`GetStoreConfig(r.Store)` returns a non-nil store of the configuration whose
effective alias is `r.Store`, and that store is the only store of the
configuration with that effective alias. -/
theorem Validate_requests_resolve (c : Config) (r : CredentialRequest)
    (hok : Config.Validate (some c) = .ok ()) (hr : some r ∈ c.Requests) :
    ∃ s, Config.GetStoreConfig (some c) r.Store = .ok (some s) ∧ s.getAlias = r.Store ∧
      some s ∈ c.Stores ∧ (aliasesOf c.Stores).count r.Store = 1 ∧
      ∀ s', some s' ∈ c.Stores → s'.getAlias = r.Store → s' = s := by
  obtain ⟨_, _, hs, hnd, _, hpass, _⟩ := (Validate_ok_iff c).1 hok
  have hdecl : r.Store ∈ aliasesOf c.Stores := (hpass r (List.reduceOption_mem_iff.2 hr)).2.2
  have hget := getStoreConfigLoop_find r.Store c.Stores hs
  cases hf : c.Stores.reduceOption.find? (fun s => decide (s.getAlias = r.Store)) with
  | none =>
    rw [List.find?_eq_none] at hf
    simp only [aliasesOf, List.mem_map] at hdecl
    obtain ⟨s, hsm, hsa⟩ := hdecl
    exact absurd (by simpa using hsa) (hf s hsm)
  | some s =>
    have hsa : s.getAlias = r.Store := by simpa using List.find?_some hf
    have hsm : s ∈ c.Stores.reduceOption := List.mem_of_find?_eq_some hf
    refine ⟨s, ?_, hsa, List.reduceOption_mem_iff.1 hsm, List.count_eq_one_of_mem hnd hdecl, ?_⟩
    · simp only [Config.GetStoreConfig, hget, hf]
    · intro s' hs' ha
      exact List.inj_on_of_nodup_map hnd (List.reduceOption_mem_iff.2 hs') hsm (ha.trans hsa.symm)

/-- Witness of C14: the request of the test `works` resolves to its store. -/
theorem Validate_requests_resolve_witness :
    ∃ s, Config.GetStoreConfig (some worksConfig) "secretsmanager" = .ok (some s) ∧
      s.getAlias = "secretsmanager" ∧ some s ∈ worksConfig.Stores ∧
      (aliasesOf worksConfig.Stores).count "secretsmanager" = 1 ∧
      ∀ s', some s' ∈ worksConfig.Stores → s'.getAlias = "secretsmanager" → s' = s :=
  Validate_requests_resolve worksConfig
    { Typ := "aws:sts", Store := "secretsmanager", Credentials := [some readOnlyCredential] }
    (by decide) (by decide)

/-- C16. `GetStoreConfig(alias)` returns the first store in declaration order
whose effective alias equals `alias`: it returns the store `s` exactly when the
stores are `pre ++ s :: post` with no store of `pre` having that alias; on
stores without nil entries it is the first match of the search, and it returns
nil if and only if no store has that effective alias.  Hence a store with a
non-empty alias different from its type is never returned for a lookup by its
type string, and the result for an empty `Stores` list is nil. -/
theorem GetStoreConfig_first_match (c : Config) (a : String) :
    (∀ s, Config.GetStoreConfig (some c) a = .ok (some s) ↔
        ∃ (pre : List StoreConfig) (post : List (Option StoreConfig)),
          c.Stores = pre.map some ++ some s :: post ∧ a ∉ pre.map StoreConfig.getAlias ∧
            s.getAlias = a) ∧
      (none ∉ c.Stores → Config.GetStoreConfig (some c) a
        = .ok (c.Stores.reduceOption.find? (fun s => decide (s.getAlias = a)))) ∧
      (none ∉ c.Stores →
        (Config.GetStoreConfig (some c) a = .ok none ↔ a ∉ aliasesOf c.Stores)) ∧
      (∀ s : StoreConfig, s.Alias ≠ "" → s.Alias ≠ s.Typ →
        Config.GetStoreConfig (some c) s.Typ ≠ .ok (some s)) ∧
      Config.GetStoreConfig (some { c with Stores := [] }) a = .ok none := by
  refine ⟨fun s => getStoreConfigLoop_some_iff a c.Stores s,
    fun h => getStoreConfigLoop_find a c.Stores h, fun h => ?_, fun s h1 h2 h => ?_, rfl⟩
  · simp only [Config.GetStoreConfig, getStoreConfigLoop_none_iff, h, not_false_eq_true, true_and]
  · obtain ⟨_, _, _, _, hs⟩ := (getStoreConfigLoop_some_iff s.Typ c.Stores s).1 h
    simp only [StoreConfig.getAlias, h1, ne_eq, not_false_eq_true, if_true] at hs
    exact h2 hs

/-- Witness of C16: in the configuration of the test `errors if alias does not
exist` the store of type `secretsmanager` with alias `concourse` is found by
`concourse` and not by `secretsmanager`; of the two stores with alias `x` the
first is returned. -/
theorem GetStoreConfig_first_match_witness :
    Config.GetStoreConfig (some aliasMissingConfig) "concourse"
        = .ok (some { Typ := "secretsmanager", Alias := "concourse", Config := [] }) ∧
      Config.GetStoreConfig (some aliasMissingConfig) "secretsmanager" = .ok none ∧
      Config.GetStoreConfig (some duplicateAliasConfig) "x"
        = .ok (some { Typ := "secretsmanager", Alias := "x", Config := [] }) ∧
      Config.GetStoreConfig (some cleanupConfig) "x" = .ok none :=
  ⟨((GetStoreConfig_first_match aliasMissingConfig "concourse").1 _).2
      ⟨[], [], by decide, by decide, by decide⟩,
    ((GetStoreConfig_first_match aliasMissingConfig "secretsmanager").2.2.1 (by decide)).2
      (by decide),
    ((GetStoreConfig_first_match duplicateAliasConfig "x").1 _).2
      ⟨[], [some { Typ := "ssm", Alias := "x", Config := [] }], by decide, by decide, by decide⟩,
    (GetStoreConfig_first_match cleanupConfig "x").2.2.2.2⟩

/-- C15. Errors are positional and identify the first violation.  Whenever
`Validate` fails with an error that starts with `stores[j]`, the stores before
`j` have pairwise distinct effective aliases and `stores[j]` repeats one of them
(the error is `stores[j]: duplicate alias`); whenever it fails with an error that
starts with `requests[i]`, all store aliases are pairwise distinct and the
configuration with `Requests` cut down to its first `i` entries is accepted. -/
theorem Validate_error_positional (c : Config) (e : ConfigError)
    (h : Config.Validate (some c) = .error e) :
    (∀ j, e.storesIndex = some j →
        none ∉ c.Stores.take j ∧ (aliasesOf (c.Stores.take j)).Nodup ∧
          ∃ s, c.Stores[j]? = some (some s) ∧ s.getAlias ∈ aliasesOf (c.Stores.take j) ∧
            e = .duplicateAlias j s.getAlias) ∧
      ∀ i, e.requestsIndex = some i →
        none ∉ c.Stores ∧ (aliasesOf c.Stores).Nodup ∧ i < c.Requests.length ∧
          Config.Validate (some { c with Requests := c.Requests.take i }) = .ok () := by
  rcases Validate_error_cases c e h with ⟨_, he⟩ | ⟨_, _, he⟩ | ⟨_, _, j, s, out, he, hget, hok, hmem⟩ |
    ⟨hv, hn, out, i, hst, he, hlt, hok⟩
  · subst he
    simp [ConfigError.storesIndex, ConfigError.requestsIndex]
  · subst he
    simp [ConfigError.storesIndex, ConfigError.requestsIndex]
  · subst he
    obtain ⟨h1, h2, _, h4⟩ := (validateStores_ok_iff _ _ _ _).1 hok
    refine ⟨?_, by simp [ConfigError.requestsIndex]⟩
    intro j' hj'
    simp only [ConfigError.storesIndex, Option.some.injEq] at hj'
    subst hj'
    refine ⟨h1, h2, s, hget, ?_, rfl⟩
    rw [h4] at hmem
    simpa using hmem
  · obtain ⟨h1, h2, _, _⟩ := (validateStores_ok_iff _ _ _ _).1 hst
    constructor
    · intro j hj
      cases e <;> simp [ConfigError.storesIndex, ConfigError.requestsIndex] at hj he
    · intro i' hi'
      rw [he] at hi'
      injection hi' with hi'
      subst hi'
      refine ⟨h1, h2, hlt, ?_⟩
      simp only [Config.Validate, hv, hn, hst, ne_eq, not_true_eq_false, if_false]
      exact hok

/-- Witness of C15: the error `stores[1]: duplicate alias "x"` of the
configuration with two stores of alias `x`, and the error `requests[1]: duplicate
request` of the test `errors on duplicate requests`, whose first request alone is
accepted. -/
theorem Validate_error_positional_witness :
    (none ∉ duplicateAliasConfig.Stores.take 1 ∧
        (aliasesOf (duplicateAliasConfig.Stores.take 1)).Nodup ∧
        ∃ s, duplicateAliasConfig.Stores[1]? = some (some s) ∧
          s.getAlias ∈ aliasesOf (duplicateAliasConfig.Stores.take 1) ∧
          ConfigError.duplicateAlias 1 "x" = .duplicateAlias 1 s.getAlias) ∧
      (none ∉ duplicateRequestsConfig.Stores ∧ (aliasesOf duplicateRequestsConfig.Stores).Nodup ∧
        1 < duplicateRequestsConfig.Requests.length ∧
        Config.Validate (some { duplicateRequestsConfig with
          Requests := duplicateRequestsConfig.Requests.take 1 }) = .ok ()) :=
  ⟨(Validate_error_positional duplicateAliasConfig (.duplicateAlias 1 "x") (by decide)).1 1 rfl,
    (Validate_error_positional duplicateRequestsConfig
      (.duplicateRequest 1 { Typ := "aws:sts", Store := "concourse" }) (by decide)).2 1 rfl⟩

/-- C17. Credential names are unique within one request only: `Validate` accepts
a configuration in which two requests of the same `Type`, for different stores,
each hold a credential with the same name (and the same, absent, type of its
own), so the pair of credential type and credential name is not unique across a
validated configuration. -/
theorem Validate_accepts_shared_credential_name :
    ∃ (c : Config) (r₁ r₂ : CredentialRequest) (q₁ q₂ : Request),
      Config.Validate (some c) = .ok () ∧ c.Requests = [some r₁, some r₂] ∧
        r₁.Typ = r₂.Typ ∧ r₁.Store ≠ r₂.Store ∧
        some q₁ ∈ r₁.Credentials ∧ some q₂ ∈ r₂.Credentials ∧
        q₁.Name = q₂.Name ∧ q₁.Typ = q₂.Typ :=
  ⟨sharedNameConfig,
    { Typ := "aws:sts", Store := "secretsmanager", Credentials := [some readOnlyCredential] },
    { Typ := "aws:sts", Store := "ssm", Credentials := [some readOnlyCredential] },
    readOnlyCredential, readOnlyCredential,
    by decide, rfl, rfl, by decide, by decide, by decide, rfl, rfl⟩

/-- C19. In a configuration that `Validate` accepts the number of requests is at
most 5 times the number of stores; in particular a validated configuration with
at least one request declares at least one store. -/
theorem Validate_request_count (c : Config) (hok : Config.Validate (some c) = .ok ()) :
    c.Requests.length ≤ 5 * c.Stores.length ∧ (c.Requests ≠ [] → c.Stores ≠ []) := by
  obtain ⟨_, _, hs, _, hnr, hpass, hkeys⟩ := (Validate_ok_iff c).1 hok
  have hlr : c.Requests.length = (keysOf c.Requests).length := by
    conv_lhs => rw [← map_some_reduceOption c.Requests hnr]
    simp [keysOf]
  have hls : c.Stores.length = (aliasesOf c.Stores).length := by
    conv_lhs => rw [← map_some_reduceOption c.Stores hs]
    simp [aliasesOf]
  have hle := length_le_of_nodup_of_keys recognizedTypes (aliasesOf c.Stores) (keysOf c.Requests)
    hkeys (by
      intro k hk
      obtain ⟨r, hr, rfl⟩ := List.mem_map.1 hk
      exact ⟨(hpass r hr).2.1, (hpass r hr).2.2⟩)
  have h5 : recognizedTypes.length = 5 := rfl
  rw [h5] at hle
  have hmain : c.Requests.length ≤ 5 * c.Stores.length := by rw [hlr, hls]; exact hle
  refine ⟨hmain, fun hne hst => ?_⟩
  rw [hst] at hmain
  simp only [List.length_nil, Nat.mul_zero, Nat.le_zero, List.length_eq_zero] at hmain
  exact hne hmain

/-- Witness of C19: the test `works` has one request and one store. -/
theorem Validate_request_count_witness :
    worksConfig.Requests.length ≤ 5 * worksConfig.Stores.length ∧
      (worksConfig.Requests ≠ [] → worksConfig.Stores ≠ []) :=
  Validate_request_count worksConfig (by decide)

/-- C18. Whether `Validate` accepts a configuration does not depend on the
declaration order: if `c'` is obtained from `c` by permuting its stores,
permuting its requests and permuting the credentials inside each request, then
`Validate` accepts `c` if and only if it accepts `c'`. -/
theorem Validate_accepts_reordered (c c' : Config) (h : c.Reordered c') :
    Config.Validate (some c) = .ok () ↔ Config.Validate (some c') = .ok () := by
  rw [Validate_ok_iff, Validate_ok_iff]
  exact Valid_of_reordered c c' h

/-- Witness of C18: a configuration with two stores and two requests, and the
same with stores, requests and credentials in the opposite order; both are
accepted. -/
theorem Validate_accepts_reordered_witness :
    Config.Validate (some twoRequestsSwappedConfig) = .ok () :=
  (Validate_accepts_reordered twoRequestsConfig twoRequestsSwappedConfig
    ⟨rfl, rfl, by decide,
      [some { Typ := "random", Store := "ssm", Credentials := [some readOnlyCredential] },
        some { Typ := "aws:sts", Store := "secretsmanager",
               Credentials := [some readOnlyCredential, some deployKeyCredential] }],
      by decide,
      List.Forall₂.cons ⟨rfl, rfl, by decide⟩
        (List.Forall₂.cons ⟨rfl, rfl, by decide⟩ List.Forall₂.nil)⟩).1 (by decide)

end Sidecred
